import Mathlib

/-!
Verification of the mal interpreter (rust implementation in `src/rust/src`).

This file gives a shallow embedding of the data model (`types.rs`), the
printer (`printer.rs`), the reader (`reader.rs`), the core namespace
(`ns.rs`), the environment chain (`env.rs`) and the evaluator (`eval.rs`),
and proves or refutes the frozen claims C1..C10 about them.

Modelling conventions:
* Rust `String` text is modelled as `List Char` (`Str`); Rust string
  operations used by the code (`replace`, `starts_with`, per-char pushes,
  regex classes) are all character-level, so this is faithful.
* `Rc<LispType>` sharing is immaterial for the claims (values are
  immutable except atoms, which no claim exercises); `LispValue` is just
  `LispType`.  An `Atom` carries its value snapshot; atom mutation
  (`reset!`/`swap!`) is not needed by any claim and is not modelled.
* Environments (`Rc<RefCell<EnvData>>`) are modelled by a `Store` of
  frames addressed by index, with explicit state passing.  Frames are only
  created with an existing frame as `outer`, so outer indices are smaller
  than the frame's own index, as in the Rust code where `outer` is fixed
  at construction time and frames cannot form cycles.
* Machine integers (`i64`) are `Int` with explicit wrapping
  (`wrap64`, release-profile semantics for `+ - *`); Rust division panics
  on a zero divisor and on `i64::MIN / -1`, which is modelled by `Option`
  (`none` = panic).  `unreachable!` panics are likewise `none`.
* All evaluator functions are total via an explicit fuel parameter that
  bounds the recursion depth; `none` means the Rust code either panicked
  or had not finished within the given depth.  Theorems quantify over the
  fuel or instantiate it concretely.
* The repository contains two revisions of the value API: `eval.rs` still
  uses `Lambda { is_macro, .. }` while `types.rs` splits this into
  `Lambda` and `Macro` constructors.  The embedding uses the `types.rs`
  constructors; a lambda stored by `defmacro!` (eval.rs: `is_macro =
  true`) is a `Macro`, and application treats `Lambda` and `Macro` alike,
  as the `eval.rs` revision did via its single `Lambda` arm.
-/

namespace Mal

/-- Character-sequence model of Rust `String` text. -/
abbrev Str := List Char

/-- Text literal helper: the character list of a Lean string literal. -/
def str (s : String) : Str := s.data

/-- Host function pointers (`types.rs` `HostFn`).  The Rust code compares
them by pointer equality; the embedding identifies each embedded builtin
by a tag. -/
inductive HostTag where
  | add | sub | mul | div | equal
deriving DecidableEq, Repr

/-- The value model, `types.rs` `LispType`.  `Lambda`/`Macro` carry the
captured environment as a frame index into the `Store`. -/
inductive LispType where
  | Nil
  | Boolean (b : Bool)
  | String (s : Str)
  | Keyword (s : Str)
  | Number (n : Int)
  | Symbol (s : Str) (meta : LispType)
  | Lambda (params : List LispType) (body : List LispType) (env : Nat) (meta : LispType)
  | Macro (params : List LispType) (body : List LispType) (env : Nat) (meta : LispType)
  | Fn (f : HostTag) (meta : LispType)
  | List (xs : List LispType) (meta : LispType)
  | Vector (xs : List LispType) (meta : LispType)
  | Map (bindings : List (Str × LispType)) (meta : LispType)
  | Atom (value : LispType)
deriving Repr

/-- Evaluation errors, `error.rs` `EvaluationError`. -/
inductive EvaluationError where
  | WrongArity (v : LispType)
  | BadArguments (v : LispType)
  | MissingSymbol (s : Str)
  | Message (s : Str)
  | Exception (v : LispType)
deriving Repr

/-- Whether a token opens or closes its extent, `reader.rs` `Direction`. -/
inductive Direction where
  | Open
  | Close
deriving DecidableEq, Repr

/-- Tokens, `reader.rs` `Token`. -/
inductive Token where
  | List (d : Direction)
  | Vector (d : Direction)
  | Map (d : Direction)
  | Atom (s : Str)
  | Comment (s : Str)
deriving DecidableEq, Repr

/-- Reader errors, `error.rs` `ReaderError`.  `ExtraInput` carries the
token vector and the reader position, as in the Rust code. -/
inductive ReaderError where
  | Message (s : Str)
  | ExtraInput (tokens : List Token) (pos : Nat)
  | EmptyInput
deriving Repr

/-! ## String escaping (printer.rs `unread_str`, reader.rs `read_str`) -/

/-- One step of Rust `str::replace`: replace every non-overlapping
occurrence of `pat` (scanning left to right) by `repl`.  The fuel is the
length of the string, which suffices because every step consumes at least
one character; the reader only ever calls this with two-character
patterns. -/
def replaceAllGo (pat repl : List Char) : Nat → List Char → List Char
  | _, [] => []
  | 0, l => l
  | f + 1, c :: rest =>
    if pat.isPrefixOf (c :: rest) then
      repl ++ replaceAllGo pat repl f (rest.drop (pat.length - 1))
    else
      c :: replaceAllGo pat repl f rest

/-- Rust `str::replace` (all occurrences, left to right). -/
def replaceAll (pat repl s : List Char) : List Char :=
  replaceAllGo pat repl s.length s

/-- The reader's string unescaping, `reader.rs` `read_str`: three
sequential whole-string `replace` passes, in source order. -/
def readStr (s : Str) : Str :=
  replaceAll ['\\', '\\'] ['\\']
    (replaceAll ['\\', 'n'] ['\n']
      (replaceAll ['\\', '"'] ['"'] s))

/-- Escape one character, the `match` inside `printer.rs` `unread_str`. -/
def escapeChar (c : Char) : List Char :=
  if c = '\n' then ['\\', 'n']
  else if c = '\\' then ['\\', '\\']
  else if c = '"' then ['\\', '"']
  else [c]

/-- The printer's string escaping, `printer.rs` `unread_str`: a double
quote, each character escaped, a double quote. -/
def unreadStr (s : Str) : Str :=
  '"' :: (s.map escapeChar).flatten ++ ['"']

/-- The characters of a string token between its surrounding quotes, as
taken by `reader.rs` `string_from` (`&token[1..token.len() - 1]`). -/
def stripQuotes (tok : Str) : Str :=
  (tok.drop 1).dropLast

/-- Per-character result of `read_str`'s first `replace` pass applied to
the escaped form of a payload character: the quote escape is undone, the
other escapes remain. -/
def esc2 (c : Char) : List Char :=
  if c = '\n' then ['\\', 'n'] else if c = '\\' then ['\\', '\\'] else [c]

/-- Per-character result after `read_str`'s second `replace` pass as
well: only the backslash escape remains. -/
def esc3 (c : Char) : List Char :=
  if c = '\\' then ['\\', '\\'] else [c]

/-- Decides whether a payload avoids the substring backslash-`n`; on
exactly these payloads the sequential replaces of `read_str` invert
`unread_str`. -/
def noBsN : List Char → Bool
  | [] => true
  | c :: rest => if c = '\\' ∧ rest.head? = some 'n' then false else noBsN rest

/-! ## Arithmetic builtins (ns.rs) -/

/-- Wrapping 64-bit signed arithmetic (release-profile Rust `i64`
semantics). -/
def wrap64 (x : Int) : Int := (x + 2 ^ 63) % 2 ^ 64 - 2 ^ 63

/-- The smallest `i64`. -/
def i64Min : Int := -(2 ^ 63)

/-- Coerce one operand to `i64`, one arm of `ns.rs` `i64_from_ast`:
a `Number` yields its payload, anything else is treated as `0`. -/
def toI64 : LispType → Int
  | .Number n => n
  | _ => 0

/-- Run the fold of `ns.rs` `fold_first` over the remaining operands.
`none` models a Rust panic inside the folded closure. -/
def foldStepGo (f : LispType → LispType → Option LispType) :
    LispType → List LispType → Option LispType
  | acc, [] => some acc
  | acc, x :: xs =>
    match f acc x with
    | none => none
    | some acc2 => foldStepGo f acc2 xs

/-- Model of `ns.rs` `fold_first`: an empty or one-element argument list is the
error `"not enough args to op"`; otherwise fold `f` over the tail with
the (uncoerced) first argument as the seed. -/
def foldFirstM (seq : List LispType)
    (f : LispType → LispType → Option LispType) :
    Option (Except EvaluationError LispType) :=
  match seq with
  | [] => some (.error (.Message (str "not enough args to op")))
  | [_] => some (.error (.Message (str "not enough args to op")))
  | first :: rest => (foldStepGo f first rest).map .ok

/-- The builtin `+` (`ns.rs` `add`). -/
def addM (seq : List LispType) : Option (Except EvaluationError LispType) :=
  foldFirstM seq (fun a b => some (.Number (wrap64 (toI64 a + toI64 b))))

/-- The builtin `-` (`ns.rs` `sub`). -/
def subM (seq : List LispType) : Option (Except EvaluationError LispType) :=
  foldFirstM seq (fun a b => some (.Number (wrap64 (toI64 a - toI64 b))))

/-- The builtin `*` (`ns.rs` `mul`). -/
def mulM (seq : List LispType) : Option (Except EvaluationError LispType) :=
  foldFirstM seq (fun a b => some (.Number (wrap64 (toI64 a * toI64 b))))

/-- One division step.  Rust `a / b` on `i64` truncates toward zero and
panics (`none`) when `b = 0` or on the overflowing `i64::MIN / -1`. -/
def divStep (a b : Int) : Option Int :=
  if b = 0 ∨ (a = i64Min ∧ b = -1) then none else some (Int.tdiv a b)

/-- The builtin `/` (`ns.rs` `div`).  `none` models the divide-by-zero
panic, which aborts the interpreter process. -/
def divM (seq : List LispType) : Option (Except EvaluationError LispType) :=
  foldFirstM seq (fun a b => (divStep (toI64 a) (toI64 b)).map .Number)

/-! ## Maps (types.rs `Assoc` over `HashMap<String, LispValue>`) -/

/-- Rust `HashMap::insert`: replace the value when the key is present,
otherwise add the pair.  (Iteration order of the Rust `HashMap` is
unspecified; the embedding keeps insertion order, and no theorem depends
on the order of map entries.) -/
def hmInsert : List (Str × LispType) → Str → LispType → List (Str × LispType)
  | [], k, v => [(k, v)]
  | (k2, w) :: rest, k, v =>
    if k = k2 then (k2, v) :: rest else (k2, w) :: hmInsert rest k v

/-- Rust `HashMap::get`. -/
def hmLookup : List (Str × LispType) → Str → Option LispType
  | [], _ => none
  | (k2, w) :: rest, k => if k = k2 then some w else hmLookup rest k

/-- Model of `types.rs` `Assoc::insert`: a `String` or `Keyword` key is inserted
under its full text (the keyword text keeps its `:`); any other key is
the `"key value is not hashable"` error.  The Rust method mutates the map
and returns `nil`; the embedding returns the updated bindings. -/
def insertA (bs : List (Str × LispType)) (key value : LispType) :
    Except EvaluationError (List (Str × LispType)) :=
  match key with
  | .String s => .ok (hmInsert bs s value)
  | .Keyword s => .ok (hmInsert bs s value)
  | _ => .error (.Message (str "key value is not hashable"))

/-- Model of `types.rs` `Assoc::get`. -/
def getA (bs : List (Str × LispType)) (key : LispType) :
    Except EvaluationError LispType :=
  match key with
  | .String s =>
    match hmLookup bs s with
    | some v => .ok v
    | none => .error (.Message (str "could not find value in map"))
  | .Keyword s =>
    match hmLookup bs s with
    | some v => .ok v
    | none => .error (.Message (str "could not find value in map"))
  | _ => .error (.Message (str "key value is not hashable"))

/-- Whether a stored key's text begins with `:` (Rust
`key.starts_with(":")`). -/
def startsWithColon : Str → Bool
  | ':' :: _ => true
  | _ => false

/-- Model of `types.rs` `Assoc::keys`: every stored key whose text begins with `:`
is reported as a `Keyword`, every other as a `String`.  The Rust method
wraps the result in a list value; the embedding returns the elements. -/
def keysA (bs : List (Str × LispType)) : List LispType :=
  bs.map (fun kv => if startsWithColon kv.1 then .Keyword kv.1 else .String kv.1)

/-- The pair loop of `types.rs` `Assoc::from_seq`. -/
def assocPairsGo : List (Str × LispType) → List LispType →
    Except EvaluationError (List (Str × LispType))
  | acc, [] => .ok acc
  | acc, k :: v :: rest =>
    match insertA acc k v with
    | .error e => .error e
    | .ok acc2 => assocPairsGo acc2 rest
  | _, [_] => .error (.Message (str "need an even number of elements to make a map"))

/-- Model of `types.rs` `Assoc::from_seq`: an odd number of elements is an error,
otherwise the pairs are inserted in order. -/
def assocFromSeq (seq : List LispType) :
    Except EvaluationError (List (Str × LispType)) :=
  if seq.length % 2 ≠ 0 then
    .error (.Message (str "need an even number of elements to make a map"))
  else assocPairsGo [] seq

/-! ## Structural equality (types.rs `impl PartialEq for LispType`) -/

mutual
/-- Model of `types.rs` `PartialEq for LispType`: structural equality.  Lambdas
(and macros, and atoms, through the catch-all arm) are never equal; a
`List` and a `Vector` are compared elementwise; metadata participates in
the equality of every type that carries it; maps are compared as Rust
`HashMap`s (same size and every key of the left map present in the right
with an equal value). -/
def valueEq : LispType → LispType → Bool
  | .Nil, .Nil => true
  | .Boolean x, .Boolean y => x == y
  | .String s, .String t => s == t
  | .Keyword s, .Keyword t => s == t
  | .Number x, .Number y => x == y
  | .Symbol s ms, .Symbol t mt => s == t && valueEq ms mt
  | .Lambda _ _ _ _, .Lambda _ _ _ _ => false
  | .Fn f mf, .Fn g mg => f == g && valueEq mf mg
  | .List xs mx, .List ys my => seqEq xs ys && valueEq mx my
  | .Vector xs mx, .Vector ys my => seqEq xs ys && valueEq mx my
  | .List xs mx, .Vector ys my => seqEq xs ys && valueEq mx my
  | .Vector xs mx, .List ys my => seqEq xs ys && valueEq mx my
  | .Map xs mx, .Map ys my =>
    Nat.beq xs.length ys.length && assocSubEq xs ys && valueEq mx my
  | _, _ => false
termination_by a b => sizeOf a + sizeOf b

/-- Elementwise equality of value sequences (Rust `Vec<LispValue>`
`PartialEq`). -/
def seqEq : List LispType → List LispType → Bool
  | [], [] => true
  | x :: xs, y :: ys => valueEq x y && seqEq xs ys
  | _, _ => false
termination_by xs ys => sizeOf xs + sizeOf ys

/-- Every binding of the first map is present in the second with an equal
value (the `iter().all(..)` half of Rust `HashMap` equality). -/
def assocSubEq : List (Str × LispType) → List (Str × LispType) → Bool
  | [], _ => true
  | (k, v) :: xs, ys => lookupValueEq k v ys && assocSubEq xs ys
termination_by xs ys => sizeOf xs + sizeOf ys

/-- Look up `k` in `ys` and compare the stored value with `v`. -/
def lookupValueEq (k : Str) (v : LispType) : List (Str × LispType) → Bool
  | [] => false
  | (k2, w) :: ys => if k == k2 then valueEq v w else lookupValueEq k v ys
termination_by ys => sizeOf v + sizeOf ys
end

/-- The builtin `=` (`ns.rs` `is_equal`): exactly two arguments compared
with structural equality; any other argument count is an error. -/
def isEqualM (args : List LispType) : Except EvaluationError LispType :=
  match args with
  | first :: second :: tail =>
    if tail.length ≠ 0 then
      .error (.Message (str "could not determine if args are equal"))
    else .ok (.Boolean (valueEq first second))
  | _ => .error (.Message (str "could not determine if args are equal"))

/-! ## Printer (printer.rs) -/

/-- Model of `printer.rs` `unread_keyword`: the keyword text is printed as stored
(the payload already carries its leading `:`). -/
def unreadKeyword (s : Str) : Str := s

/-- Decimal rendering of an `i64` (Rust `i64::to_string`). -/
def intStr (n : Int) : Str := (toString n).data

/-- Map-key printing inside `types.rs` `Assoc::print`: a stored key
beginning with `:` is restored to a `Keyword`, anything else to a
`String`, before being printed with the current readability. -/
def prMapKey (readably : Bool) (k : Str) : Str :=
  if startsWithColon k then unreadKeyword k
  else if readably then unreadStr k else k

mutual
/-- Model of `printer.rs` `pr_str`.  An atom prints its contents with
`printer::print`, i.e. readably, regardless of the current flag, as the
Rust `Display` instance does. -/
def prStr (readably : Bool) : LispType → Str
  | .Nil => str "nil"
  | .Boolean b => if b then str "true" else str "false"
  | .String s => if readably then unreadStr s else s
  | .Keyword s => unreadKeyword s
  | .Number n => intStr n
  | .Symbol s _ => s
  | .Lambda _ _ _ _ => str "#<fn>"
  | .Macro _ _ _ _ => str "#<macro>"
  | .Fn _ _ => str "#<host-fn>"
  | .List seq _ => '(' :: prSeq readably seq ++ [')']
  | .Vector seq _ => '[' :: prSeq readably seq ++ [']']
  | .Map m _ => '{' :: prMapPairs readably m ++ ['}']
  | .Atom v => str "(atom " ++ prStr true v ++ [')']
termination_by v => sizeOf v

/-- Model of `printer.rs` `pr_seq`: elements printed and joined with single
spaces. -/
def prSeq (readably : Bool) : List LispType → Str
  | [] => []
  | [x] => prStr readably x
  | x :: xs => prStr readably x ++ ' ' :: prSeq readably xs
termination_by l => sizeOf l

/-- Model of `types.rs` `Assoc::print`: `key value` pairs joined with single
spaces, in the map's (unspecified) iteration order, here the stored
order. -/
def prMapPairs (readably : Bool) : List (Str × LispType) → Str
  | [] => []
  | [(k, v)] => prMapKey readably k ++ ' ' :: prStr readably v
  | (k, v) :: rest =>
    prMapKey readably k ++ ' ' :: prStr readably v ++ ' ' :: prMapPairs readably rest
termination_by l => sizeOf l
end

/-- Model of `printer.rs` `print`: readable printing. -/
def printV (v : LispType) : Str := prStr true v

/-! ## Tokenizer (reader.rs `tokenizer`, `TOKEN_REGEX`)

The token regex is
`[\s,]*(~@|[\[\]{}()'`~^@]|"(?:\\.|[^\\"])*"|;.*|[^\s\[\]{}('"`,;)]*)`
applied through `Regex::captures_iter`.  The regex can match (possibly
emptily) at every position, so each match starts exactly where the
previous one ended; the crate's match iterator advances one position
past an empty match and skips an empty match whose end coincides with the
end of the previous match ("don't accept empty matches immediately
following a match").  `tokensGo` reproduces this iteration; `adj` records
whether the previous match ended at the current position. -/

/-- The regex class `[\s,]`: whitespace or comma (ASCII whitespace; the
source inputs contain no exotic Unicode spaces). -/
def isWsC (c : Char) : Bool :=
  c = ' ' || c = '\t' || c = '\n' || c = '\r' || c = ','

/-- The single-character token alternative `[\[\]{}()'`~^@]`. -/
def isSpecialC (c : Char) : Bool :=
  c = '[' || c = ']' || c = '{' || c = '}' || c = '(' || c = ')' ||
  c = '\'' || c = '`' || c = '~' || c = '^' || c = '@'

/-- The atom-run class `[^\s\[\]{}('"`,;)]`. -/
def isAtomC (c : Char) : Bool :=
  !(isWsC c || c = '[' || c = ']' || c = '{' || c = '}' || c = '(' ||
    c = ')' || c = '\'' || c = '"' || c = '`' || c = ';')

/-- Scan a string literal body after the opening quote: the regex piece
`(?:\\.|[^\\"])*"`.  `\\.` is a backslash followed by any character but a
newline (regex `.`); a bare quote closes the literal.  Returns the body
and the remaining input, or `none` when the literal never closes. -/
def scanStr : List Char → Option (List Char × List Char)
  | [] => none
  | '"' :: rest => some ([], rest)
  | '\\' :: c :: rest =>
    if c = '\n' then none
    else
      match scanStr rest with
      | none => none
      | some (b, r) => some ('\\' :: c :: b, r)
  | ['\\'] => none
  | c :: rest =>
    match scanStr rest with
    | none => none
    | some (b, r) => some (c :: b, r)

/-- The capture group of the regex match at the current position (after
the `[\s,]*` prefix): alternatives in the regex's order.  Returns the
group text and the rest of the input; an unterminated string literal (or
end of input) yields the empty group. -/
def groupAt : List Char → List Char × List Char
  | [] => ([], [])
  | '~' :: '@' :: rest => (['~', '@'], rest)
  | c :: rest =>
    if isSpecialC c then ([c], rest)
    else if c = '"' then
      match scanStr rest with
      | some (b, r) => ('"' :: b ++ ['"'], r)
      | none => ([], c :: rest)
    else if c = ';' then
      (';' :: rest.takeWhile (fun d => !(d = '\n')),
       rest.dropWhile (fun d => !(d = '\n')))
    else if isAtomC c then
      ((c :: rest).takeWhile isAtomC, (c :: rest).dropWhile isAtomC)
    else ([], c :: rest)

/-- Whether a group's text begins with `;` (Rust `c.starts_with(';')`). -/
def startsWithSemi : Str → Bool
  | ';' :: _ => true
  | _ => false

/-- Model of `reader.rs` `token_from`: a group starting with `;` is a comment,
the six delimiters make open/close tokens, everything else an atom. -/
def tokenFrom (g : Str) : Token :=
  if startsWithSemi g then .Comment g
  else if g = str "(" then .List .Open
  else if g = str ")" then .List .Close
  else if g = str "[" then .Vector .Open
  else if g = str "]" then .Vector .Close
  else if g = ['{'] then .Map .Open
  else if g = ['}'] then .Map .Close
  else .Atom g

/-- The `captures_iter` loop.  `adj` is true when the previous match
ended at the current position; an empty match is then skipped (advancing
one character), otherwise it yields an empty `Atom` token and also
advances one character.  A non-empty match yields its group's token.  The
fuel is the remaining input length plus one, which suffices because every
step either consumes input or terminates. -/
def tokensGo : Nat → List Char → Bool → List Token
  | 0, _, _ => []
  | f + 1, l, adj =>
    let ws := l.takeWhile isWsC
    let l1 := l.dropWhile isWsC
    let g := (groupAt l1).1
    let rest := (groupAt l1).2
    if ws.isEmpty && g.isEmpty then
      match l, adj with
      | [], true => []
      | [], false => [.Atom []]
      | _ :: t, true => tokensGo f t false
      | _ :: t, false => .Atom [] :: tokensGo f t false
    else
      tokenFrom g :: tokensGo f rest true

/-- Model of `reader.rs` `tokenizer`. -/
def tokenize (input : Str) : List Token :=
  tokensGo (input.length + 1) input false

/-! ## Reader (reader.rs `read_form`, `read_seq`, `read_atom`, `read`) -/

/-- Model of `reader.rs` `nil_from`. -/
def nilFrom? (t : Str) : Option LispType :=
  if t = str "nil" then some .Nil else none

/-- Model of `reader.rs` `boolean_from` (Rust `bool::from_str`: exactly `true` or
`false`). -/
def boolFrom? (t : Str) : Option LispType :=
  if t = str "true" then some (.Boolean true)
  else if t = str "false" then some (.Boolean false)
  else none

/-- Accumulate decimal digits (`none` on a non-digit or an empty run). -/
def digitsGo : Nat → List Char → Option Nat
  | acc, [] => some acc
  | acc, c :: cs =>
    if c.isDigit then digitsGo (10 * acc + (c.toNat - 48)) cs else none

/-- Rust `i64::from_str`: an optional sign, one or more ASCII digits, and
the value must fit in `i64` (overflow makes the parse fail, so such a
token becomes a symbol). -/
def parseI64? (t : Str) : Option Int :=
  let core : Option (Bool × List Char) :=
    match t with
    | '+' :: rest => some (false, rest)
    | '-' :: rest => some (true, rest)
    | _ => some (false, t)
  match core with
  | some (neg, ds) =>
    if ds.isEmpty then none
    else
      match digitsGo 0 ds with
      | none => none
      | some m =>
        if neg then
          if (m : Int) ≤ 2 ^ 63 then some (-(m : Int)) else none
        else
          if (m : Int) ≤ 2 ^ 63 - 1 then some (m : Int) else none
  | none => none

/-- Model of `reader.rs` `number_from`. -/
def numberFrom? (t : Str) : Option LispType :=
  (parseI64? t).map .Number

/-- Model of `reader.rs` `keyword_from`: the regex `^:(.*)$` matched against the
token (tokens never contain a newline, so the match succeeds exactly when
the token starts with `:`); the stored text is capture 0, the whole token
including the `:`. -/
def keywordFrom? (t : Str) : Option LispType :=
  if startsWithColon t then some (.Keyword t) else none

/-- Model of `reader.rs` `string_from`: the regex `^".*"$` (so a leading and a
trailing quote with no newline between them), then `read_str` on the text
between the quotes. -/
def stringFrom? (t : Str) : Option LispType :=
  match t with
  | '"' :: rest =>
    if rest.isEmpty then none
    else if rest.getLast? = some '"' && rest.dropLast.all (fun c => !(c = '\n')) then
      some (.String (readStr rest.dropLast))
    else none
  | _ => none

/-- Model of `reader.rs` `read_atom` classification chain: `nil`, boolean, number,
keyword, string, and the symbol catch-all, in source order. -/
def readAtomClassify (t : Str) : LispType :=
  match nilFrom? t with
  | some v => v
  | none =>
    match boolFrom? t with
    | some v => v
    | none =>
      match numberFrom? t with
      | some v => v
      | none =>
        match keywordFrom? t with
        | some v => v
        | none =>
          match stringFrom? t with
          | some v => v
          | none => .Symbol t .Nil

mutual
/-- Model of `reader.rs` `read_form`.  The cursor is the remaining token list;
each result carries the tokens left after the form.  Comments are
skipped; a reader-macro sigil consumes itself and reads the next form
(on an inner error the result is the initial `"could not read form"`
error, with the inner consumption kept, exactly as the Rust
`macroexpand!` macro behaves); an empty atom token yields `EmptyInput`
without being consumed; a close token stops without being consumed.
`none` is fuel exhaustion (the Rust loop can genuinely diverge, e.g. on
an empty atom token inside an open sequence). -/
def readForm : Nat → List Token → Option (Except ReaderError LispType × List Token)
  | 0, _ => none
  | f + 1, ts =>
    match ts with
    | [] => some (.error (.Message (str "could not read form")), [])
    | .Comment _ :: rest => readForm f rest
    | .Atom a :: rest =>
      let sig : Str → Option (Except ReaderError LispType × List Token) := fun name =>
        match readForm f rest with
        | none => none
        | some (.ok next, r1) =>
          some (.ok (.List [.Symbol name .Nil, next] .Nil), r1)
        | some (.error _, r1) =>
          some (.error (.Message (str "could not read form")), r1)
      if a = str "'" then sig (str "quote")
      else if a = str "`" then sig (str "quasiquote")
      else if a = str "~" then sig (str "unquote")
      else if a = str "~@" then sig (str "splice-unquote")
      else if a = str "@" then sig (str "deref")
      else if a = str "^" then
        match readForm f rest with
        | none => none
        | some (.error e, r1) => some (.error e, r1)
        | some (.ok meta, r1) =>
          match readForm f r1 with
          | none => none
          | some (.error e, r2) => some (.error e, r2)
          | some (.ok dat, r2) =>
            some (.ok (.List [.Symbol (str "with-meta") .Nil, dat, meta] .Nil), r2)
      else if a.isEmpty then some (.error .EmptyInput, ts)
      else some (.ok (readAtomClassify a), rest)
    | .List .Open :: rest =>
      match readSeqT f rest with
      | none => none
      | some (.ok seq, r1) => some (.ok (.List seq .Nil), r1)
      | some (.error e, r1) => some (.error e, r1)
    | .List .Close :: _ => some (.error (.Message (str "could not read form")), ts)
    | .Vector .Open :: rest =>
      match readSeqT f rest with
      | none => none
      | some (.ok seq, r1) => some (.ok (.Vector seq .Nil), r1)
      | some (.error e, r1) => some (.error e, r1)
    | .Vector .Close :: _ => some (.error (.Message (str "could not read form")), ts)
    | .Map .Open :: rest =>
      match readSeqT f rest with
      | none => none
      | some (.error e, r1) => some (.error e, r1)
      | some (.ok seq, r1) =>
        match assocFromSeq seq with
        | .ok m => some (.ok (.Map m .Nil), r1)
        | .error (.Message s) => some (.error (.Message s), r1)
        | .error _ => some (.error (.Message (str "could not read map")), r1)
    | .Map .Close :: _ => some (.error (.Message (str "could not read form")), ts)

/-- Model of `reader.rs` `read_seq` after the opening token has been consumed:
accumulate forms until a close token; a form that errors is dropped and
the loop continues (the source's `if let Ok(form)`); running out of
tokens is the `"did not close seq properly"` error. -/
def readSeqT : Nat → List Token → Option (Except ReaderError (List LispType) × List Token)
  | 0, _ => none
  | f + 1, ts =>
    match ts with
    | [] => some (.error (.Message (str "did not close seq properly")), [])
    | .List .Close :: rest => some (.ok [], rest)
    | .Vector .Close :: rest => some (.ok [], rest)
    | .Map .Close :: rest => some (.ok [], rest)
    | _ =>
      match readForm f ts with
      | none => none
      | some (.ok form, r1) =>
        match readSeqT f r1 with
        | none => none
        | some (.ok forms, r2) => some (.ok (form :: forms), r2)
        | some (.error e, r2) => some (.error e, r2)
      | some (.error _, r1) => readSeqT f r1
end

/-- Model of `reader.rs` `read`: tokenize, read one form, and return it only when
every token was consumed; otherwise `ExtraInput` with the token vector
and the cursor position. -/
def readR (f : Nat) (input : Str) : Option (Except ReaderError LispType) :=
  let ts := tokenize input
  match readForm f ts with
  | none => none
  | some (r, rest) =>
    if rest.isEmpty then some r
    else some (.error (.ExtraInput ts (ts.length - rest.length)))

/-! ## Environments (env.rs)

A `Store` holds every frame ever created, addressed by index; an `Env`
value in the Rust code (`Rc<RefCell<EnvData>>`) is a frame index here.
`outer` is fixed at frame creation and always refers to an existing
(hence lower-indexed) frame, so chains are finite, as in the Rust code. -/

/-- One environment frame (`env.rs` `EnvData`): bindings plus an optional
outer frame. -/
structure Frame where
  bindings : List (Str × LispType)
  outer : Option Nat
deriving Repr

/-- The collection of all live frames. -/
structure Store where
  frames : List Frame
deriving Repr

/-- Model of `env.rs` `EnvData::set`: insert or overwrite in the addressed frame.
A dangling index leaves the store unchanged (unreachable through `Rc` in
the Rust code). -/
def envSet (st : Store) (i : Nat) (k : Str) (v : LispType) : Store :=
  match st.frames[i]? with
  | some fr => ⟨st.frames.set i ⟨hmInsert fr.bindings k v, fr.outer⟩⟩
  | none => st

/-- Model of `env.rs` `new` and `empty_from`: create a frame with the given bindings
and outer reference, returning the new store and the frame's index. -/
def pushFrame (st : Store) (bs : List (Str × LispType)) (outer : Option Nat) :
    Store × Nat :=
  (⟨st.frames ++ [⟨bs, outer⟩]⟩, st.frames.length)

/-- Walk of `env.rs` `EnvData::find` along the outer chain.  The fuel
exceeds any chain length in a well-formed store. -/
def envFindGo (st : Store) : Nat → Nat → Str → Option LispType
  | 0, _, _ => none
  | f + 1, i, k =>
    match st.frames[i]? with
    | none => none
    | some fr =>
      match hmLookup fr.bindings k with
      | some v => some v
      | none =>
        match fr.outer with
        | some j => envFindGo st f j k
        | none => none

/-- Model of `env.rs` `EnvData::get`: lookup along the chain, else
`MissingSymbol`. -/
def envGet (st : Store) (i : Nat) (k : Str) : Except EvaluationError LispType :=
  match envFindGo st (st.frames.length + 1) i k with
  | some v => .ok v
  | none => .error (.MissingSymbol k)

/-- Walk of `env.rs` `root`: follow outer references to the outermost
frame. -/
def rootGo (st : Store) : Nat → Nat → Nat
  | 0, i => i
  | f + 1, i =>
    match st.frames[i]? with
    | some fr =>
      match fr.outer with
      | some j => rootGo st f j
      | none => i
    | none => i

/-- Model of `env.rs` `root`. -/
def rootOf (st : Store) (i : Nat) : Nat :=
  rootGo st (st.frames.length + 1) i

/-! ## Parameter binding (ns.rs `new_from`) -/

/-- Extract the parameter names; a non-`Symbol` parameter is the
`unreachable!` panic (`none`). -/
def paramNames : List LispType → Option (List Str)
  | [] => some []
  | .Symbol s _ :: rest => (paramNames rest).map (s :: ·)
  | _ => none

/-- Rust `slice::split` on the predicate `p == "&"`: subslices separated
by (and not containing) the matching elements; always nonempty. -/
def splitAmp : List Str → List (List Str)
  | [] => [[]]
  | x :: xs =>
    if x = str "&" then [] :: splitAmp xs
    else
      match splitAmp xs with
      | g :: gs => (x :: g) :: gs
      | [] => [[x]]

/-- Model of `ns.rs` `new_from`: bind the parameters before any `&` to the
arguments positionally (`zip` silently truncates on either side — there
is no arity check), and when a parameter follows a `&`, append a binding
of it to a list of the remaining arguments.  The bindings are then
inserted in order into a fresh namespace. -/
def newFrom (params exprs : List LispType) : Option (List (Str × LispType)) :=
  match paramNames params with
  | none => none
  | some names =>
    let allParams := splitAmp names
    let boundParams := allParams.headD []
    let boundExprs := exprs.take boundParams.length
    let varBinding : Option (Str × LispType) :=
      match allParams[1]? with
      | none => none
      | some varParams =>
        match varParams[0]? with
        | none => none
        | some varParam =>
          some (varParam, .List (exprs.drop boundExprs.length) .Nil)
    let bp := match varBinding with
      | some (p, _) => boundParams ++ [p]
      | none => boundParams
    let be := match varBinding with
      | some (_, ex) => boundExprs ++ [ex]
      | none => boundExprs
    some ((bp.zip be).foldl (fun acc kv => hmInsert acc kv.1 kv.2) [])

/-! ## Evaluator (eval.rs)

Every function below threads the `Store` and returns
`Option (Store × Except EvaluationError LispType)`, where `none` is a
Rust panic (`unreachable!`, division by zero) or fuel exhaustion.  The
recursive knot is tied by `evalF`, which consumes one unit of fuel per
nesting level and passes itself (at the smaller fuel) to the helpers. -/

/-- Evaluator function type. -/
abbrev EvalFn := Store → LispType → Nat → Option (Store × Except EvaluationError LispType)

/-- Model of `eval.rs` `eval_seq`: evaluate the operands in order, stopping at the
first error. -/
def evalSeqF (ev : EvalFn) :
    Store → List LispType → Nat → Option (Store × Except EvaluationError (List LispType))
  | st, [], _ => some (st, .ok [])
  | st, x :: xs, e =>
    match ev st x e with
    | none => none
    | some (st1, .error err) => some (st1, .error err)
    | some (st1, .ok v) =>
      match evalSeqF ev st1 xs e with
      | none => none
      | some (st2, .error err) => some (st2, .error err)
      | some (st2, .ok vs) => some (st2, .ok (v :: vs))

/-- Model of `eval.rs` `eval_sequence`: evaluate every form and keep only the last
result (`.map(..).last()`), so errors of non-final forms are discarded
while their store effects remain; an empty sequence is the
`"could not eval sequence"` error. -/
def evalSequenceF (ev : EvalFn) :
    Store → List LispType → Nat → Option (Store × Except EvaluationError LispType)
  | st, [], _ => some (st, .error (.Message (str "could not eval sequence")))
  | st, [x], e => ev st x e
  | st, x :: y :: xs, e =>
    match ev st x e with
    | none => none
    | some (st1, _) => evalSequenceF ev st1 (y :: xs) e

/-- Model of `eval.rs` `eval_map` via `types.rs` `new_map_from_fn`: evaluate each
stored value (keys stay literal), propagating errors. -/
def evalMapValsF (ev : EvalFn) :
    Store → List (Str × LispType) → Nat →
    Option (Store × Except EvaluationError (List (Str × LispType)))
  | st, [], _ => some (st, .ok [])
  | st, (k, v) :: rest, e =>
    match ev st v e with
    | none => none
    | some (st1, .error err) => some (st1, .error err)
    | some (st1, .ok w) =>
      match evalMapValsF ev st1 rest e with
      | none => none
      | some (st2, .error err) => some (st2, .error err)
      | some (st2, .ok bs) => some (st2, .ok ((k, w) :: bs))

/-- Model of `eval.rs` `apply_lambda`: bind the parameters to the evaluated
arguments with `ns::new_from`, make a child frame of the lambda's
captured environment, and evaluate the body sequence there. -/
def applyLambdaF (ev : EvalFn) (st : Store) (params body : List LispType)
    (env : Nat) (args : List LispType) :
    Option (Store × Except EvaluationError LispType) :=
  match newFrom params args with
  | none => none
  | some bs =>
    let pushed := pushFrame st bs (some env)
    evalSequenceF ev pushed.1 body pushed.2

/-- Dispatch of the embedded host functions (`ns.rs` entries used by the
claims). -/
def hostApply : HostTag → List LispType → Option (Except EvaluationError LispType)
  | .add, args => addM args
  | .sub, args => subM args
  | .mul, args => mulM args
  | .div, args => divM args
  | .equal, args => some (isEqualM args)

/-- Model of `eval.rs` `apply`: evaluate the operands first, then the operator
form, then dispatch on the callable.  Applying a non-callable is the
`unreachable!` panic.  `Macro` is applied like `Lambda`, as in the
`eval.rs` revision where both are one constructor. -/
def applyF (ev : EvalFn) (st : Store) (operator : LispType)
    (operands : List LispType) (e : Nat) :
    Option (Store × Except EvaluationError LispType) :=
  match evalSeqF ev st operands e with
  | none => none
  | some (st1, .error err) => some (st1, .error err)
  | some (st1, .ok evops) =>
    match ev st1 operator e with
    | none => none
    | some (st2, .error err) => some (st2, .error err)
    | some (st2, .ok opv) =>
      match opv with
      | .Lambda params body lenv _ => applyLambdaF ev st2 params body lenv evops
      | .Macro params body lenv _ => applyLambdaF ev st2 params body lenv evops
      | .Fn f _ =>
        match hostApply f evops with
        | none => none
        | some r => some (st2, r)
      | _ => none

/-- Model of `eval.rs` `is_macro_call`: a nonempty list whose head symbol resolves
in the environment to a macro. -/
def isMacroCall (st : Store) (v : LispType) (e : Nat) : Bool :=
  match v with
  | .List (x :: _) _ =>
    match x with
    | .Symbol s _ =>
      match envGet st e s with
      | .ok (.Macro _ _ _ _) => true
      | _ => false
    | _ => false
  | _ => false

/-- Model of `eval.rs` `macroexpand`: while the value is a macro call, apply the
macro (through `apply`, so the macro's operands are evaluated first, as
the source does) and continue with the expansion.  The fuel bounds the
number of expansion steps. -/
def macroexpandF (ev : EvalFn) : Nat → Store → LispType → Nat →
    Option (Store × Except EvaluationError LispType) :=
  fun f st v e =>
    if isMacroCall st v e then
      match f with
      | 0 => none
      | f' + 1 =>
        match v with
        | .List (x :: rest) _ =>
          match x with
          | .Symbol s _ =>
            match envGet st e s with
            | .error err => some (st, .error err)
            | .ok mval =>
              match applyF ev st mval rest e with
              | none => none
              | some (st1, .error err) => some (st1, .error err)
              | some (st1, .ok expansion) => macroexpandF ev f' st1 expansion e
          | _ => some (st, .error (.BadArguments v))
        | _ => some (st, .error (.BadArguments v))
    else some (st, .ok v)

/-- The nonempty-sequence view used by `eval.rs` `eval_quasiquote_for`:
a nonempty `List` or `Vector` yields its head and tail, anything else
takes the `(quote arg)` branch. -/
def argElems? : LispType → Option (LispType × List LispType)
  | .List (x :: xs) _ => some (x, xs)
  | .Vector (x :: xs) _ => some (x, xs)
  | _ => none

mutual
/-- Model of `eval.rs` `eval_quasiquote_for`.  This function never evaluates; it
rewrites the argument into `quote`/`cons`/`concat` code.  When the first
element is itself a nonempty list or vector, inner errors are collapsed
to `BadArguments` (the source's `.ok()` followed by `ok_or`), and a
vector first element makes the `cons` result a vector; in the catch-all
arm errors propagate unchanged.  The fuel bounds the recursion depth. -/
def qqGo : Nat → LispType → Option (Except EvaluationError LispType)
  | 0, _ => none
  | f + 1, arg =>
    match argElems? arg with
    | none => some (.ok (.List [.Symbol (str "quote") .Nil, arg] .Nil))
    | some (first, restElems) =>
      match first with
      | .Symbol s _ =>
        if s = str "unquote" then
          match restElems with
          | second :: _ => some (.ok second)
          | [] => some (.error (.WrongArity arg))
        else qqCons f false arg first restElems
      | .List (ifirst :: irest) _ =>
        match ifirst with
        | .Symbol s2 _ =>
          if s2 = str "splice-unquote" then qqSplice f arg irest restElems
          else qqConsSwallow f false arg first restElems
        | _ => qqConsSwallow f false arg first restElems
      | .Vector (ifirst :: irest) _ =>
        match ifirst with
        | .Symbol s2 _ =>
          if s2 = str "splice-unquote" then qqSplice f arg irest restElems
          else qqConsSwallow f true arg first restElems
        | _ => qqConsSwallow f true arg first restElems
      | _ => qqCons f false arg first restElems
termination_by f _ => (f, 0)

/-- The `splice-unquote` branch: `(concat second (quasiquote rest))`,
with inner failures collapsed to `BadArguments arg`. -/
def qqSplice (f : Nat) (arg : LispType) (irest restElems : List LispType) :
    Option (Except EvaluationError LispType) :=
  match irest with
  | [] => some (.error (.BadArguments arg))
  | second :: _ =>
    match qqGo f (.List restElems .Nil) with
    | none => none
    | some (.error _) => some (.error (.BadArguments arg))
    | some (.ok vals) =>
      some (.ok (.List [.Symbol (str "concat") .Nil, second, vals] .Nil))
termination_by (f, 1)

/-- The `cons` branch with inner failures collapsed to
`BadArguments arg`; `vec` chooses a vector result. -/
def qqConsSwallow (f : Nat) (vec : Bool) (arg first : LispType)
    (restElems : List LispType) : Option (Except EvaluationError LispType) :=
  match qqCons f vec arg first restElems with
  | none => none
  | some (.error _) => some (.error (.BadArguments arg))
  | some (.ok v) => some (.ok v)
termination_by (f, 2)

/-- The `cons` branch with errors propagating: rewrite head and tail and
build `(cons head tail)` (a vector when `vec`). -/
def qqCons (f : Nat) (vec : Bool) (_arg first : LispType)
    (restElems : List LispType) : Option (Except EvaluationError LispType) :=
  match qqGo f first with
  | none => none
  | some (.error e) => some (.error e)
  | some (.ok fv) =>
    match qqGo f (.List restElems .Nil) with
    | none => none
    | some (.error e) => some (.error e)
    | some (.ok sv) =>
      if vec then some (.ok (.Vector [.Symbol (str "cons") .Nil, fv, sv] .Nil))
      else some (.ok (.List [.Symbol (str "cons") .Nil, fv, sv] .Nil))
termination_by (f, 1)
end

/-- Model of `eval.rs` `eval_if`. -/
def evalIfF (ev : EvalFn) (st : Store) (seq : List LispType) (e : Nat) :
    Option (Store × Except EvaluationError LispType) :=
  match seq with
  | p :: c :: rest =>
    match ev st p e with
    | none => none
    | some (st1, .error err) => some (st1, .error err)
    | some (st1, .ok pv) =>
      match pv with
      | .Nil =>
        match rest with
        | a :: _ => ev st1 a e
        | [] => some (st1, .ok .Nil)
      | .Boolean false =>
        match rest with
        | a :: _ => ev st1 a e
        | [] => some (st1, .ok .Nil)
      | _ => ev st1 c e
  | _ => some (st, .error (.Message (str "wrong arity")))

/-- Model of `eval.rs` `eval_define`: the name must be a symbol (else the
`unreachable!` panic), the value is evaluated, bound in the current
frame, and returned. -/
def evalDefineF (ev : EvalFn) (st : Store) (seq : List LispType) (e : Nat) :
    Option (Store × Except EvaluationError LispType) :=
  match seq with
  | n :: val :: _ =>
    match n with
    | .Symbol name _ =>
      match ev st val e with
      | none => none
      | some (st1, .error err) => some (st1, .error err)
      | some (st1, .ok v) => some (envSet st1 e name v, .ok v)
    | _ => none
  | _ => some (st, .error (.Message (str "wrong arity")))

/-- The pair loop of `eval.rs` `build_let_env`: an incomplete trailing
pair stops the loop; a non-symbol name is the `unreachable!` panic; a
binding whose expression errors is silently skipped (`.ok()`); each
successful binding is set in the growing child frame. -/
def buildLetGo (ev : EvalFn) : Store → Nat → List LispType → Option (Store × Nat)
  | st, env, [] => some (st, env)
  | st, env, [_] => some (st, env)
  | st, env, k :: v :: rest =>
    match k with
    | .Symbol name _ =>
      match ev st v env with
      | none => none
      | some (st1, .error _) => buildLetGo ev st1 env rest
      | some (st1, .ok val) => buildLetGo ev (envSet st1 env name val) env rest
    | _ => none

/-- Model of `eval.rs` `build_let_env`: a child frame of the current environment,
filled by the pair loop. -/
def buildLetEnvF (ev : EvalFn) (st : Store) (bindings : List LispType) (e : Nat) :
    Option (Store × Nat) :=
  let pushed := pushFrame st [] (some e)
  buildLetGo ev pushed.1 pushed.2 bindings

/-- Model of `eval.rs` `eval_let`: the first operand must be a list or vector of
bindings (else `"wrong type!"`); build the let environment and evaluate
the remaining operands as a sequence there. -/
def evalLetF (ev : EvalFn) (st : Store) (seq : List LispType) (e : Nat) :
    Option (Store × Except EvaluationError LispType) :=
  match seq with
  | [] => some (st, .error (.Message (str "wrong arity")))
  | bindings :: body =>
    match bindings with
    | .List bs _ =>
      match buildLetEnvF ev st bs e with
      | none => none
      | some (st1, env1) => evalSequenceF ev st1 body env1
    | .Vector bs _ =>
      match buildLetEnvF ev st bs e with
      | none => none
      | some (st1, env1) => evalSequenceF ev st1 body env1
    | _ => some (st, .error (.Message (str "wrong type!")))

/-- Model of `eval.rs` `eval_lambda`: at least a parameter list (list or vector,
else the `unreachable!` panic) and one body form; captures the current
environment. -/
def evalLambdaF (st : Store) (seq : List LispType) (e : Nat) :
    Option (Store × Except EvaluationError LispType) :=
  match seq with
  | ps :: b :: rest =>
    match ps with
    | .List params _ => some (st, .ok (.Lambda params (b :: rest) e .Nil))
    | .Vector params _ => some (st, .ok (.Lambda params (b :: rest) e .Nil))
    | _ => none
  | _ => some (st, .error (.Message (str "wrong arity")))

/-- Model of `eval.rs` `eval_eval` (the `eval` special form): evaluate all
operands in the current environment, then evaluate the first result in
the root environment reached from the current one. -/
def evalEvalF (ev : EvalFn) (st : Store) (seq : List LispType) (e : Nat) :
    Option (Store × Except EvaluationError LispType) :=
  match evalSeqF ev st seq e with
  | none => none
  | some (st1, .error err) => some (st1, .error err)
  | some (st1, .ok vals) =>
    match vals with
    | [] => some (st1, .error (.Message (str "wrong arity")))
    | v :: _ => ev st1 v (rootOf st1 e)

/-- Model of `eval.rs` `eval_quote`. -/
def evalQuoteF (st : Store) (seq : List LispType) :
    Option (Store × Except EvaluationError LispType) :=
  match seq with
  | [] => some (st, .error (.Message (str "wrong arity")))
  | q :: _ => some (st, .ok q)

/-- Model of `eval.rs` `eval_quasiquote`: rewrite the first operand and evaluate
the rewritten code. -/
def evalQuasiquoteF (f : Nat) (ev : EvalFn) (st : Store) (seq : List LispType)
    (e : Nat) : Option (Store × Except EvaluationError LispType) :=
  match seq with
  | [] => some (st, .error (.Message (str "wrong arity")))
  | arg :: _ =>
    match qqGo f arg with
    | none => none
    | some (.error err) => some (st, .error err)
    | some (.ok expanded) => ev st expanded e

/-- Model of `eval.rs` `eval_macro` (`defmacro!`): the name must be a symbol (else
the `unreachable!` panic); the body must evaluate to a lambda, which is
re-wrapped with `is_macro = true` (a `Macro` here) and — note — defined in
the *lambda's captured* environment, the variable the source's match arm
shadows. -/
def evalMacroDefF (ev : EvalFn) (st : Store) (seq : List LispType) (e : Nat) :
    Option (Store × Except EvaluationError LispType) :=
  match seq with
  | n :: val :: _ =>
    match n with
    | .Symbol name _ =>
      match ev st val e with
      | none => none
      | some (st1, .error err) => some (st1, .error err)
      | some (st1, .ok fv) =>
        match fv with
        | .Lambda params body lenv _ =>
          let newF := LispType.Macro params body lenv .Nil
          some (envSet st1 lenv name newF, .ok newF)
        | _ => some (st1, .error (.Message (str "Could not eval macro")))
    | _ => none
  | _ => some (st, .error (.Message (str "not enough arguments in call to defmacro!")))

/-- Model of `eval.rs` `eval_macroexpand`: expand the first operand (unevaluated)
once through the macroexpansion loop. -/
def evalMacroexpandF (f : Nat) (ev : EvalFn) (st : Store) (seq : List LispType)
    (e : Nat) : Option (Store × Except EvaluationError LispType) :=
  match seq with
  | [] => some (st, .error (.Message (str "not enough args in call to macroexpand")))
  | v :: _ => macroexpandF ev f st v e

/-- The exception payload bound by `try*`, the five arms of `eval.rs`
`eval_try`: the thrown value for `Exception`, a stringified message for
every other kind. -/
def excValue : EvaluationError → LispType
  | .WrongArity _ => .String (str "wrong arity")
  | .BadArguments _ => .String (str "bad arguments to fn")
  | .MissingSymbol s => .String (str "'" ++ s ++ str "' not found")
  | .Message m => .String m
  | .Exception v => v

/-- Model of `eval.rs` `eval_catch`: the handler must be a list of at least three
elements; a symbol head other than `catch*` is rejected (a non-symbol
head slips through the source's match); the result is a one-parameter
lambda over the current environment. -/
def evalCatchF (handler : LispType) (e : Nat) : Except EvaluationError LispType :=
  match handler with
  | .List (s0 :: s1 :: s2 :: _) _ =>
    match s0 with
    | .Symbol s _ =>
      if s = str "catch*" then .ok (.Lambda [s1] [s2] e .Nil)
      else .error (.Message (str "no catch handler supplied -- missing catch* ?"))
    | _ => .ok (.Lambda [s1] [s2] e .Nil)
  | _ => .error (.Message (str "wrong arity to catch handler"))

/-- Model of `eval.rs` `eval_exception`: apply the handler lambda to the exception
payload in the current environment (the lambda's own captured environment
is ignored, as in the source). -/
def evalExceptionF (ev : EvalFn) (st : Store) (handler exc : LispType) (e : Nat) :
    Option (Store × Except EvaluationError LispType) :=
  match handler with
  | .Lambda params body _ _ => applyLambdaF ev st params body e [exc]
  | _ => none

/-- Model of `eval.rs` `eval_try`: evaluate the body; on success return its value;
on any error build the catch lambda and apply it to the exception
payload. -/
def evalTryF (ev : EvalFn) (st : Store) (seq : List LispType) (e : Nat) :
    Option (Store × Except EvaluationError LispType) :=
  match seq with
  | body :: handler :: _ =>
    match ev st body e with
    | none => none
    | some (st1, .ok v) => some (st1, .ok v)
    | some (st1, .error err) =>
      match evalCatchF handler e with
      | .error cerr => some (st1, .error cerr)
      | .ok lam => evalExceptionF ev st1 lam (excValue err) e
  | _ => some (st, .error (.Message (str "wrong arity")))

/-- The special forms of `eval.rs` `eval_list`. -/
inductive SpecialForm where
  | sfIf | sfDo | sfDef | sfLet | sfFn | sfEval | sfEnv | sfQuote
  | sfQuasiquote | sfMacroDef | sfMacroexpand | sfTry
deriving DecidableEq, Repr

/-- Recognize a special-form head symbol (`eval.rs` form constants). -/
def specialForm? (s : Str) : Option SpecialForm :=
  if s = str "if" then some .sfIf
  else if s = str "do" then some .sfDo
  else if s = str "def!" then some .sfDef
  else if s = str "let*" then some .sfLet
  else if s = str "fn*" then some .sfFn
  else if s = str "eval" then some .sfEval
  else if s = str "env" then some .sfEnv
  else if s = str "quote" then some .sfQuote
  else if s = str "quasiquote" then some .sfQuasiquote
  else if s = str "defmacro!" then some .sfMacroDef
  else if s = str "macroexpand" then some .sfMacroexpand
  else if s = str "try*" then some .sfTry
  else none

/-- Model of `eval.rs` `eval_list`: the empty list evaluates to itself; a symbol
head naming a special form dispatches to it (`env` prints the environment
— an I/O effect outside the model — and returns `nil`); anything else is
function application. -/
def evalListF (f : Nat) (ev : EvalFn) (st : Store) (seq : List LispType) (e : Nat) :
    Option (Store × Except EvaluationError LispType) :=
  match seq with
  | [] => some (st, .ok (.List [] .Nil))
  | op :: operands =>
    match op with
    | .Symbol s _ =>
      match specialForm? s with
      | some .sfIf => evalIfF ev st operands e
      | some .sfDo => evalSequenceF ev st operands e
      | some .sfDef => evalDefineF ev st operands e
      | some .sfLet => evalLetF ev st operands e
      | some .sfFn => evalLambdaF st operands e
      | some .sfEval => evalEvalF ev st operands e
      | some .sfEnv => some (st, .ok .Nil)
      | some .sfQuote => evalQuoteF st operands
      | some .sfQuasiquote => evalQuasiquoteF f ev st operands e
      | some .sfMacroDef => evalMacroDefF ev st operands e
      | some .sfMacroexpand => evalMacroexpandF f ev st operands e
      | some .sfTry => evalTryF ev st operands e
      | none => applyF ev st op operands e
    | _ => applyF ev st op operands e

/-- Model of `eval.rs` `eval`: symbols look up; lists macroexpand first and then
either dispatch as a list or re-evaluate the non-list expansion; vectors
and maps evaluate elementwise; everything else is self-evaluating.  One
unit of fuel is consumed per nesting level. -/
def evalF : Nat → Store → LispType → Nat → Option (Store × Except EvaluationError LispType)
  | 0, _, _, _ => none
  | f + 1, st, v, e =>
    match v with
    | .Symbol s _ =>
      match envGet st e s with
      | .ok val => some (st, .ok val)
      | .error err => some (st, .error err)
    | .List seq m =>
      match macroexpandF (evalF f) f st (.List seq m) e with
      | none => none
      | some (st1, .error err) => some (st1, .error err)
      | some (st1, .ok expanded) =>
        match expanded with
        | .List seq2 _ => evalListF f (evalF f) st1 seq2 e
        | other => evalF f st1 other e
    | .Vector seq _ =>
      match evalSeqF (evalF f) st seq e with
      | none => none
      | some (st1, .error err) => some (st1, .error err)
      | some (st1, .ok vals) => some (st1, .ok (.Vector vals .Nil))
    | .Map bs _ =>
      match evalMapValsF (evalF f) st bs e with
      | none => none
      | some (st1, .error err) => some (st1, .error err)
      | some (st1, .ok bs2) => some (st1, .ok (.Map bs2 .Nil))
    | other => some (st, .ok other)

/-! ## Auxiliary definitions used by the claim statements -/

/-- Specification-side fold for `/`: the running quotient over the
coerced operands, `none` as soon as a step would panic. -/
def divFoldSpec : Int → List LispType → Option Int
  | n, [] => some n
  | n, x :: xs =>
    match divStep n (toI64 x) with
    | none => none
    | some m => divFoldSpec m xs

/-- A `(try* body (catch* p cbody))` form. -/
def tryCatchForm (body : LispType) (p : Str) (cbody : LispType) : LispType :=
  .List [.Symbol (str "try*") .Nil, body,
         .List [.Symbol (str "catch*") .Nil, .Symbol p .Nil, cbody] .Nil] .Nil

/-- An `(eval arg)` form. -/
def evalForm (arg : LispType) : LispType :=
  .List [.Symbol (str "eval") .Nil, arg] .Nil

/-- The outer reference of a frame, if the frame exists. -/
def frameOuter (st : Store) (i : Nat) : Option Nat :=
  (st.frames[i]?).bind Frame.outer

/-- Well-formed store: every outer reference points to an earlier frame.
Every store the Rust code can build satisfies this, because `outer` is
fixed when a frame is created and can only name an already existing
frame. -/
def StoreWF (st : Store) : Prop :=
  ∀ (i : Nat) (fr : Frame), st.frames[i]? = some fr → ∀ j, fr.outer = some j → j < i

/-- Reachability along outer references. -/
inductive OuterReaches (st : Store) : Nat → Nat → Prop where
  | refl (i : Nat) : OuterReaches st i i
  | step {i j k : Nat} {fr : Frame} : st.frames[i]? = some fr →
      fr.outer = some j → OuterReaches st j k → OuterReaches st i k

/-! ## Claims -/

/-! ### The reader/printer string round trip (helper lemmas for C1) -/

theorem stripQuotes_unreadStr (s : Str) :
    stripQuotes (unreadStr s) = (s.map escapeChar).flatten := by
  simp [stripQuotes, unreadStr]

theorem headE_ne_quote (rest : List Char) :
    ((rest.map escapeChar).flatten).head? ≠ some '"' := by
  cases rest with
  | nil => simp
  | cons c t =>
    by_cases h1 : c = '\n'
    · simp [escapeChar, h1]
    · by_cases h2 : c = '\\'
      · simp [escapeChar, h1, h2]
      · by_cases h3 : c = '"'
        · simp [escapeChar, h1, h2, h3]
        · simp [escapeChar, h1, h2, h3]

theorem headE2_ne_n (rest : List Char) (h : rest.head? ≠ some 'n') :
    ((rest.map esc2).flatten).head? ≠ some 'n' := by
  cases rest with
  | nil => simp
  | cons c t =>
    simp only [List.head?_cons, ne_eq, Option.some.injEq] at h
    by_cases h1 : c = '\n'
    · simp [esc2, h1]
    · by_cases h2 : c = '\\'
      · simp [esc2, h1, h2]
      · simp [esc2, h1, h2]
        exact h

theorem not_prefix_of_head (a b c : Char) (l : List Char) (h : l.head? ≠ some b) :
    [a, b].isPrefixOf (c :: l) = false := by
  cases l with
  | nil => simp [List.isPrefixOf]
  | cons d u =>
    simp only [List.head?_cons, ne_eq, Option.some.injEq] at h
    simp [List.isPrefixOf, Ne.symm h]

theorem pass1 :
    ∀ (s : List Char) (f : Nat), ((s.map escapeChar).flatten).length ≤ f →
      replaceAllGo ['\\', '"'] ['"'] f ((s.map escapeChar).flatten)
        = (s.map esc2).flatten := by
  intro s
  induction s with
  | nil => intro f _; cases f <;> rfl
  | cons c t ih =>
    intro f hlen
    by_cases h1 : c = '\n'
    · subst h1
      have he : escapeChar '\n' = ['\\', 'n'] := by decide
      have hL : ((t.map escapeChar).flatten).length + 2 ≤ f := by
        simp only [List.map_cons, List.flatten_cons, he, List.length_append,
          List.length_cons, List.length_nil] at hlen
        omega
      simp only [List.map_cons, List.flatten_cons, he, List.cons_append, List.nil_append]
      cases f with
      | zero => omega
      | succ f1 =>
        cases f1 with
        | zero => omega
        | succ f2 =>
          rw [replaceAllGo]
          rw [if_neg (by simp [List.isPrefixOf])]
          rw [replaceAllGo]
          rw [if_neg (by simp [List.isPrefixOf])]
          rw [ih f2 (by omega)]
          simp [esc2]
    · by_cases h2 : c = '\\'
      · subst h2
        have he : escapeChar '\\' = ['\\', '\\'] := by decide
        have hL : ((t.map escapeChar).flatten).length + 2 ≤ f := by
          simp only [List.map_cons, List.flatten_cons, he, List.length_append,
            List.length_cons, List.length_nil] at hlen
          omega
        simp only [List.map_cons, List.flatten_cons, he, List.cons_append, List.nil_append]
        cases f with
        | zero => omega
        | succ f1 =>
          cases f1 with
          | zero => omega
          | succ f2 =>
            rw [replaceAllGo]
            rw [if_neg (by simp [List.isPrefixOf])]
            rw [replaceAllGo]
            rw [if_neg (by
              rw [not_prefix_of_head '\\' '"' '\\' _ (headE_ne_quote t)]
              exact Bool.false_ne_true)]
            rw [ih f2 (by omega)]
            simp [esc2]
      · by_cases h3 : c = '"'
        · subst h3
          have he : escapeChar '"' = ['\\', '"'] := by decide
          have hL : ((t.map escapeChar).flatten).length + 2 ≤ f := by
            simp only [List.map_cons, List.flatten_cons, he, List.length_append,
              List.length_cons, List.length_nil] at hlen
            omega
          simp only [List.map_cons, List.flatten_cons, he, List.cons_append, List.nil_append]
          cases f with
          | zero => omega
          | succ f1 =>
            cases f1 with
            | zero => omega
            | succ f2 =>
              rw [replaceAllGo]
              rw [if_pos (by simp [List.isPrefixOf])]
              have hd : ('"' :: (t.map escapeChar).flatten).drop (['\\', '"'].length - 1)
                  = (t.map escapeChar).flatten := rfl
              rw [hd]
              rw [ih (f2 + 1) (by omega)]
              simp [esc2]
        · have he : escapeChar c = [c] := by simp [escapeChar, h1, h2, h3]
          have hL : ((t.map escapeChar).flatten).length + 1 ≤ f := by
            simp only [List.map_cons, List.flatten_cons, he, List.length_append,
              List.length_cons, List.length_nil] at hlen
            omega
          simp only [List.map_cons, List.flatten_cons, he, List.cons_append, List.nil_append]
          cases f with
          | zero => omega
          | succ f1 =>
            rw [replaceAllGo]
            rw [if_neg (by
              simp only [List.isPrefixOf, Bool.and_eq_true, beq_iff_eq]
              intro hx
              exact h2 hx.1.symm)]
            rw [ih f1 (by omega)]
            simp [esc2, h1, h2]

theorem pass2 (s : List Char) (h : noBsN s = true) :
    ∀ (f : Nat), ((s.map esc2).flatten).length ≤ f →
      replaceAllGo ['\\', 'n'] ['\n'] f ((s.map esc2).flatten)
        = (s.map esc3).flatten := by
  induction s with
  | nil => intro f _; cases f <;> rfl
  | cons c t ih =>
    intro f hlen
    rw [noBsN] at h
    by_cases h1 : c = '\n'
    · subst h1
      rw [if_neg (by simp)] at h
      have he : esc2 '\n' = ['\\', 'n'] := by decide
      have hL : ((t.map esc2).flatten).length + 2 ≤ f := by
        simp only [List.map_cons, List.flatten_cons, he, List.length_append,
          List.length_cons, List.length_nil] at hlen
        omega
      simp only [List.map_cons, List.flatten_cons, he, List.cons_append, List.nil_append]
      cases f with
      | zero => omega
      | succ f1 =>
        rw [replaceAllGo]
        rw [if_pos (by simp [List.isPrefixOf])]
        have hd : ('n' :: (t.map esc2).flatten).drop (['\\', 'n'].length - 1)
            = (t.map esc2).flatten := rfl
        rw [hd]
        rw [ih h f1 (by omega)]
        simp [esc3]
    · by_cases h2 : c = '\\'
      · subst h2
        have hn : t.head? ≠ some 'n' := by
          intro hx
          rw [if_pos ⟨rfl, hx⟩] at h
          cases h
        rw [if_neg (by
          intro hx
          exact hn hx.2)] at h
        have he : esc2 '\\' = ['\\', '\\'] := by decide
        have hL : ((t.map esc2).flatten).length + 2 ≤ f := by
          simp only [List.map_cons, List.flatten_cons, he, List.length_append,
            List.length_cons, List.length_nil] at hlen
          omega
        simp only [List.map_cons, List.flatten_cons, he, List.cons_append, List.nil_append]
        cases f with
        | zero => omega
        | succ f1 =>
          cases f1 with
          | zero => omega
          | succ f2 =>
            rw [replaceAllGo]
            rw [if_neg (by simp [List.isPrefixOf])]
            rw [replaceAllGo]
            rw [if_neg (by
              rw [not_prefix_of_head '\\' 'n' '\\' _ (headE2_ne_n t hn)]
              exact Bool.false_ne_true)]
            rw [ih h f2 (by omega)]
            simp [esc3]
      · rw [if_neg (by
          intro hx
          exact h2 hx.1)] at h
        have he : esc2 c = [c] := by simp [esc2, h1, h2]
        have hL : ((t.map esc2).flatten).length + 1 ≤ f := by
          simp only [List.map_cons, List.flatten_cons, he, List.length_append,
            List.length_cons, List.length_nil] at hlen
          omega
        simp only [List.map_cons, List.flatten_cons, he, List.cons_append, List.nil_append]
        cases f with
        | zero => omega
        | succ f1 =>
          rw [replaceAllGo]
          rw [if_neg (by
            simp only [List.isPrefixOf, Bool.and_eq_true, beq_iff_eq]
            intro hx
            exact h2 hx.1.symm)]
          rw [ih h f1 (by omega)]
          simp [esc3, h2]

theorem pass3 :
    ∀ (s : List Char) (f : Nat), ((s.map esc3).flatten).length ≤ f →
      replaceAllGo ['\\', '\\'] ['\\'] f ((s.map esc3).flatten) = s := by
  intro s
  induction s with
  | nil => intro f _; cases f <;> rfl
  | cons c t ih =>
    intro f hlen
    by_cases h1 : c = '\\'
    · subst h1
      have he : esc3 '\\' = ['\\', '\\'] := by decide
      have hL : ((t.map esc3).flatten).length + 2 ≤ f := by
        simp only [List.map_cons, List.flatten_cons, he, List.length_append,
          List.length_cons, List.length_nil] at hlen
        omega
      simp only [List.map_cons, List.flatten_cons, he, List.cons_append, List.nil_append]
      cases f with
      | zero => omega
      | succ f1 =>
        rw [replaceAllGo]
        rw [if_pos (by simp [List.isPrefixOf])]
        have hd : ('\\' :: (t.map esc3).flatten).drop (['\\', '\\'].length - 1)
            = (t.map esc3).flatten := rfl
        rw [hd]
        rw [ih f1 (by omega)]
        rfl
    · have he : esc3 c = [c] := by simp [esc3, h1]
      have hL : ((t.map esc3).flatten).length + 1 ≤ f := by
        simp only [List.map_cons, List.flatten_cons, he, List.length_append,
          List.length_cons, List.length_nil] at hlen
        omega
      simp only [List.map_cons, List.flatten_cons, he, List.cons_append, List.nil_append]
      cases f with
      | zero => omega
      | succ f1 =>
        rw [replaceAllGo]
        rw [if_neg (by
          simp only [List.isPrefixOf, Bool.and_eq_true, beq_iff_eq]
          intro hx
          exact h1 hx.1.symm)]
        rw [ih f1 (by omega)]

theorem readStr_unreadStr_of_noBsN (s : Str) (h : noBsN s = true) :
    readStr (stripQuotes (unreadStr s)) = s := by
  rw [stripQuotes_unreadStr, readStr]
  simp only [replaceAll]
  rw [pass1 s _ le_rfl]
  rw [pass2 s h _ le_rfl]
  rw [pass3 s _ le_rfl]

/-- C1: the claim asserts that the reader's string unescaping exactly
inverts the printer's escaping for every string payload.  On the payload
backslash-`n` (two characters) the printer escapes the backslash, giving
the token `"\\n"`, but `read_str`'s second sequential `replace` pass then
turns the remnant backslash-`n` into a newline: the round trip returns
backslash-newline, not backslash-`n`.  This contradicts the documented
per-escape transformation in `reader.rs` (lines 337–341) and the
`printer.rs` comment that `unread_str` performs the opposite actions of
`read_str`, so the code, not the claim, is wrong.  The final conjunct
bounds the damage: on every payload with no backslash-`n` substring the
round trip is the identity. -/
theorem c1_read_str_not_inverse_of_unread_str :
    readStr (stripQuotes (unreadStr ['\\', 'n'])) = ['\\', '\n'] ∧
    readStr ['\\', '\\', 'n'] = ['\\', '\n'] ∧
    ['\\', '\n'] ≠ ['\\', 'n'] ∧
    ∀ s : Str, noBsN s = true → readStr (stripQuotes (unreadStr s)) = s := by
  refine ⟨rfl, rfl, by decide, ?_⟩
  intro s h
  exact readStr_unreadStr_of_noBsN s h

/-- Running the round trip of C1 on the concrete payload `a`, backslash,
`b`, which contains no backslash-`n` substring, returns the payload
unchanged. -/
theorem c1_read_str_not_inverse_of_unread_str_witness :
    noBsN ['a', '\\', 'b'] = true ∧
    readStr (stripQuotes (unreadStr ['a', '\\', 'b'])) = ['a', '\\', 'b'] :=
  ⟨by decide,
    c1_read_str_not_inverse_of_unread_str.2.2.2 ['a', '\\', 'b'] (by decide)⟩

/-- C2 counterexample: applying a lambda of two fixed parameters to a
single argument does not produce a `WrongArity` error; `new_from` binds
`a` to the argument, leaves `b` unbound, and the body evaluates
normally. -/
theorem c2_underapplied_lambda_not_wrong_arity :
    applyLambdaF (evalF 1) ⟨[⟨[], none⟩]⟩
        [.Symbol (str "a") .Nil, .Symbol (str "b") .Nil]
        [.Number 42] 0 [.Number 1]
      = some (⟨[⟨[], none⟩, ⟨[(str "a", .Number 1)], some 0⟩]⟩, .ok (.Number 42)) ∧
    ∀ st v,
      applyLambdaF (evalF 1) ⟨[⟨[], none⟩]⟩
          [.Symbol (str "a") .Nil, .Symbol (str "b") .Nil]
          [.Number 42] 0 [.Number 1]
        ≠ some (st, .error (.WrongArity v)) := by
  refine ⟨rfl, ?_⟩
  intro st v h
  rw [show applyLambdaF (evalF 1) ⟨[⟨[], none⟩]⟩
        [.Symbol (str "a") .Nil, .Symbol (str "b") .Nil]
        [.Number 42] 0 [.Number 1]
      = some (⟨[⟨[], none⟩, ⟨[(str "a", .Number 1)], some 0⟩]⟩, .ok (.Number 42)) from rfl] at h
  simp at h

/-- C3: the claim (and the spec's propagation policy) says an error in a
`let*` binding expression makes the whole `let*` evaluation return that
error.  The code's `build_let_env` discards the error through `.ok()` and
skips the binding: `(let* (a b) 42)` with `b` unbound evaluates to `42`
in a child frame with no binding at all, even though evaluating `b` alone
is a `MissingSymbol` error. -/
theorem c3_let_binding_error_swallowed :
    evalF 3 ⟨[⟨[], none⟩]⟩
        (.List [.Symbol (str "let*") .Nil,
                .List [.Symbol (str "a") .Nil, .Symbol (str "b") .Nil] .Nil,
                .Number 42] .Nil) 0
      = some (⟨[⟨[], none⟩, ⟨[], some 0⟩]⟩, .ok (.Number 42)) ∧
    evalF 1 ⟨[⟨[], none⟩]⟩ (.Symbol (str "b") .Nil) 0
      = some (⟨[⟨[], none⟩]⟩, .error (.MissingSymbol (str "b"))) := by
  exact ⟨rfl, rfl⟩

/-- C4: the claim says `/` with a zero divisor returns a runtime error as
an evaluation result and never crashes the interpreter.  The code
computes `a / b` directly on `i64`, so a zero divisor — or a non-number
divisor coerced to `0` — is a Rust divide-by-zero panic (`none`), which
aborts the process; no `EvaluationError` is produced.  A non-zero divide
folds normally. -/
theorem c4_division_by_zero_panics :
    divM [.Number 1, .Number 0] = none ∧
    divM [.Number 1, .String (str "x")] = none ∧
    divM [.Number 7, .Number 2] = some (.ok (.Number 3)) := by
  exact ⟨rfl, rfl, rfl⟩

/-- C6 counterexample: `"42 "` is exactly one complete form surrounded by
whitespace, yet `read` returns `ExtraInput`: the token regex turns the
trailing whitespace into a trailing empty atom token that `read_form`
never consumes. -/
theorem c6_trailing_whitespace_is_extra_input :
    readR 9 (str "42 ")
      = some (.error (.ExtraInput [.Atom (str "42"), .Atom []] 1)) := by
  exact rfl

/-- C6 amended: `read` returns `ExtraInput` exactly when `read_form`
leaves unconsumed tokens, whatever they are.  Leading whitespace, commas
and comments are absorbed before the form and the form reads cleanly;
trailing whitespace or commas produce a trailing empty atom token, and a
trailing comment a comment token, so all of those are `ExtraInput` just
like a genuine extra form. -/
theorem c6_extra_input_iff_tokens_remain :
    readR 9 (str "42") = some (.ok (.Number 42)) ∧
    readR 9 (str " ,,42") = some (.ok (.Number 42)) ∧
    readR 9 (str ";c\n42") = some (.ok (.Number 42)) ∧
    readR 9 (str "42,")
      = some (.error (.ExtraInput [.Atom (str "42"), .Atom []] 1)) ∧
    readR 9 (str "42 ;c")
      = some (.error (.ExtraInput [.Atom (str "42"), .Comment (str ";c")] 1)) ∧
    readR 9 (str "(1 2) 3")
      = some (.error (.ExtraInput
          [.List .Open, .Atom (str "1"), .Atom (str "2"), .List .Close,
           .Atom (str "3")] 4)) ∧
    ∀ f input r rest,
      readForm f (tokenize input) = some (r, rest) →
      (rest ≠ [] → readR f input
          = some (.error (.ExtraInput (tokenize input)
              ((tokenize input).length - rest.length)))) ∧
      (rest = [] → readR f input = some r) := by
  refine ⟨rfl, rfl, rfl, rfl, rfl, rfl, ?_⟩
  intro f input r rest h
  simp only [readR, h]
  constructor
  · intro hrest
    have : rest.isEmpty = false := by
      cases rest with
      | nil => exact absurd rfl hrest
      | cons a t => rfl
    rw [this]
    simp
  · intro hrest
    subst hrest
    simp

/-- C6 witness: a genuine extra form after one complete form reports
`ExtraInput` at the cursor position, and a single clean form reads
through unchanged. -/
theorem c6_extra_input_iff_tokens_remain_witness :
    readR 9 (str "42 43")
      = some (.error (.ExtraInput [.Atom (str "42"), .Atom (str "43")] 1)) ∧
    readR 9 (str "7") = some (.ok (.Number 7)) := by
  constructor
  · have h := ((c6_extra_input_iff_tokens_remain).2.2.2.2.2.2 9 (str "42 43")
      (.ok (.Number 42)) [Token.Atom (str "43")] rfl).1 (by simp)
    exact h
  · exact ((c6_extra_input_iff_tokens_remain).2.2.2.2.2.2 9 (str "7")
      (.ok (.Number 7)) [] rfl).2 rfl

/-- C7 counterexample: the claim says every argument sequence folds, with
the first argument as the seed; a one-element sequence would fold to its
seed `5`, but the code returns the `"not enough args to op"` error, and
likewise for the empty sequence. -/
theorem c7_short_argument_lists_error_not_fold :
    addM [.Number 5] = some (.error (.Message (str "not enough args to op"))) ∧
    addM [] = some (.error (.Message (str "not enough args to op"))) ∧
    addM [.Number 5] ≠ some (.ok (.Number 5)) := by
  refine ⟨rfl, rfl, ?_⟩
  intro h
  rw [show addM [.Number 5]
      = some (.error (.Message (str "not enough args to op"))) from rfl] at h
  simp at h

/-- C9 counterexample: a `List` and a `Vector` with equal element
sequences but different metadata are not equal — `PartialEq` also
compares the metadata of the two containers, which the claim omits. -/
theorem c9_equal_elements_unequal_metadata_not_equal :
    seqEq [.Number 1] [.Number 1] = true ∧
    valueEq (.List [.Number 1] (.Number 5)) (.Vector [.Number 1] .Nil) = false ∧
    isEqualM [.List [.Number 1] (.Number 5), .Vector [.Number 1] .Nil]
      = .ok (.Boolean false) := by
  refine ⟨?_, ?_, ?_⟩
  · simp [seqEq, valueEq]
  · simp [valueEq, seqEq]
  · simp [isEqualM, valueEq, seqEq]

/-- Coercion of a number operand. -/
@[simp] theorem toI64_number (n : Int) : toI64 (.Number n) = n := rfl

/-- Folding an arithmetic step over operands, starting from a number,
equals the integer left fold (each non-number operand coerced to zero). -/
theorem foldStepGo_arith (g : Int → Int → Int) :
    ∀ (rest : List LispType) (m : Int),
      foldStepGo (fun a b => some (.Number (g (toI64 a) (toI64 b)))) (.Number m) rest
        = some (.Number (rest.foldl (fun n y => g n (toI64 y)) m)) := by
  intro rest
  induction rest with
  | nil => intro m; rfl
  | cons x xs ih => intro m; simpa [foldStepGo, toI64] using ih (g m (toI64 x))

/-- Folding the division step over operands, starting from a number,
equals `divFoldSpec`. -/
theorem foldStepGo_div :
    ∀ (rest : List LispType) (m : Int),
      foldStepGo (fun a b => (divStep (toI64 a) (toI64 b)).map .Number) (.Number m) rest
        = (divFoldSpec m rest).map .Number := by
  intro rest
  induction rest with
  | nil => intro m; rfl
  | cons x xs ih =>
    intro m
    simp only [foldStepGo, divFoldSpec, toI64_number]
    cases h : divStep m (toI64 x) with
    | none => simp [h]
    | some k => simp [h, ih k]

/-- C7 amended: with at least two arguments, `+ - *` return the wrapping
64-bit left fold over the coerced operands with the first argument's
coercion as the seed, and `/` returns the corresponding running quotient
unless a step panics; with fewer than two arguments every arithmetic
builtin returns the `"not enough args to op"` error instead of a fold. -/
theorem c7_arith_left_fold :
    (∀ (a x : LispType) (rest : List LispType),
      addM (a :: x :: rest) = some (.ok (.Number
        ((x :: rest).foldl (fun n y => wrap64 (n + toI64 y)) (toI64 a)))) ∧
      subM (a :: x :: rest) = some (.ok (.Number
        ((x :: rest).foldl (fun n y => wrap64 (n - toI64 y)) (toI64 a)))) ∧
      mulM (a :: x :: rest) = some (.ok (.Number
        ((x :: rest).foldl (fun n y => wrap64 (n * toI64 y)) (toI64 a)))) ∧
      divM (a :: x :: rest)
        = (divFoldSpec (toI64 a) (x :: rest)).map (fun n => .ok (.Number n))) ∧
    (∀ a : LispType,
      addM [a] = some (.error (.Message (str "not enough args to op"))) ∧
      subM [a] = some (.error (.Message (str "not enough args to op"))) ∧
      mulM [a] = some (.error (.Message (str "not enough args to op"))) ∧
      divM [a] = some (.error (.Message (str "not enough args to op"))) ∧
      addM [] = some (.error (.Message (str "not enough args to op")))) := by
  constructor
  · intro a x rest
    refine ⟨?_, ?_, ?_, ?_⟩
    · simp [addM, foldFirstM, foldStepGo, foldStepGo_arith (fun n y => wrap64 (n + y))]
    · simp [subM, foldFirstM, foldStepGo, foldStepGo_arith (fun n y => wrap64 (n - y))]
    · simp [mulM, foldFirstM, foldStepGo, foldStepGo_arith (fun n y => wrap64 (n * y))]
    · simp only [divM, foldFirstM, foldStepGo, divFoldSpec]
      cases divStep (toI64 a) (toI64 x) with
      | none => rfl
      | some k => simp [foldStepGo_div, Option.map_map]; rfl
  · intro a
    exact ⟨rfl, rfl, rfl, rfl, rfl⟩

/-- C9 amended: a `List` and a `Vector` whose element sequences are
elementwise equal *and whose metadata are equal* are structurally equal
in either orientation, both through value equality and through the
builtin `=`. -/
theorem c9_list_vector_equal_elements_and_meta :
    ∀ (xs ys : List LispType) (mx my : LispType),
      seqEq xs ys = true → valueEq mx my = true →
      valueEq (.List xs mx) (.Vector ys my) = true ∧
      valueEq (.Vector xs mx) (.List ys my) = true ∧
      isEqualM [.List xs mx, .Vector ys my] = .ok (.Boolean true) := by
  intro xs ys mx my hseq hmeta
  refine ⟨?_, ?_, ?_⟩
  · simp [valueEq, hseq, hmeta]
  · simp [valueEq, hseq, hmeta]
  · simp [isEqualM, valueEq, hseq, hmeta]

/-- C9 witness. -/
theorem c9_list_vector_equal_elements_and_meta_witness :
    valueEq (.List [.Number 2] .Nil) (.Vector [.Number 2] .Nil) = true ∧
    isEqualM [.List [.Number 2] .Nil, .Vector [.Number 2] .Nil]
      = .ok (.Boolean true) := by
  have h := c9_list_vector_equal_elements_and_meta [.Number 2] [.Number 2] .Nil .Nil
    (by simp [seqEq, valueEq]) (by simp [valueEq])
  exact ⟨h.1, h.2.2⟩

/-- Looking up a key right after inserting it yields the inserted
value. -/
theorem hmLookup_hmInsert_self :
    ∀ (bs : List (Str × LispType)) (k : Str) (v : LispType),
      hmLookup (hmInsert bs k v) k = some v := by
  intro bs
  induction bs with
  | nil => intro k v; simp [hmInsert, hmLookup]
  | cons kv rest ih =>
    intro k v
    by_cases h : k = kv.1
    · simp [hmInsert, hmLookup, h]
    · simp [hmInsert, hmLookup, h, ih]

/-- C10: a `String` key and a `Keyword` key with the same full text
denote the same map entry — inserting under one overwrites the other (in
either order), `get` retrieves the latest value through either key type,
and `keys` reports every stored key by its text: as a `Keyword` when the
text begins with `:` (regardless of how it was inserted), as a `String`
otherwise. -/
theorem c10_string_keyword_same_entry :
    ∀ (bs : List (Str × LispType)) (s : Str) (v w : LispType),
      (∀ b1 b2, insertA bs (.String s) v = .ok b1 →
        insertA b1 (.Keyword s) w = .ok b2 →
        getA b2 (.String s) = .ok w ∧ getA b2 (.Keyword s) = .ok w) ∧
      (∀ b1 b2, insertA bs (.Keyword s) v = .ok b1 →
        insertA b1 (.String s) w = .ok b2 →
        getA b2 (.String s) = .ok w ∧ getA b2 (.Keyword s) = .ok w) ∧
      (∀ (k : Str) (vv : LispType), (k, vv) ∈ bs →
        (startsWithColon k = true → .Keyword k ∈ keysA bs) ∧
        (startsWithColon k = false → .String k ∈ keysA bs)) := by
  intro bs s v w
  refine ⟨?_, ?_, ?_⟩
  · intro b1 b2 h1 h2
    simp only [insertA, Except.ok.injEq] at h1 h2
    subst h1; subst h2
    constructor <;> simp [getA, hmLookup_hmInsert_self]
  · intro b1 b2 h1 h2
    simp only [insertA, Except.ok.injEq] at h1 h2
    subst h1; subst h2
    constructor <;> simp [getA, hmLookup_hmInsert_self]
  · intro k vv hmem
    constructor
    · intro hc
      exact List.mem_map.mpr ⟨(k, vv), hmem, by simp [hc]⟩
    · intro hc
      exact List.mem_map.mpr ⟨(k, vv), hmem, by simp [hc]⟩

/-- C10 witness: insert `":a"` as a `String`, overwrite through the
`Keyword` with the same text, retrieve through both, and observe `keys`
restoring the keyword discriminant. -/
theorem c10_string_keyword_same_entry_witness :
    (getA (hmInsert (hmInsert [] (str ":a") (.Number 1)) (str ":a") (.Number 2))
        (.String (str ":a")) = .ok (.Number 2) ∧
     getA (hmInsert (hmInsert [] (str ":a") (.Number 1)) (str ":a") (.Number 2))
        (.Keyword (str ":a")) = .ok (.Number 2)) ∧
    .Keyword (str ":a") ∈ keysA [(str ":a", .Number 1)] := by
  constructor
  · exact (c10_string_keyword_same_entry [] (str ":a") (.Number 1) (.Number 2)).1
      (hmInsert [] (str ":a") (.Number 1))
      (hmInsert (hmInsert [] (str ":a") (.Number 1)) (str ":a") (.Number 2))
      rfl rfl
  · exact (((c10_string_keyword_same_entry [(str ":a", .Number 1)] (str ":a")
      (.Number 1) (.Number 2)).2.2) (str ":a") (.Number 1) (by simp)).1 (by decide)

/-- Zipping against a truncated right list changes nothing. -/
theorem zip_take_self :
    ∀ (l1 : List Str) (l2 : List LispType), l1.zip (l2.take l1.length) = l1.zip l2 := by
  intro l1
  induction l1 with
  | nil => intro l2; simp
  | cons a t ih =>
    intro l2
    cases l2 with
    | nil => simp
    | cons b u => simp [ih u]

/-- The keys of a zip are the truncated left list. -/
theorem map_fst_zip_take :
    ∀ (l1 : List Str) (l2 : List LispType), (l1.zip l2).map Prod.fst = l1.take l2.length := by
  intro l1
  induction l1 with
  | nil => intro l2; simp
  | cons a t ih =>
    intro l2
    cases l2 with
    | nil => simp
    | cons b u => simp [ih u]

/-- Zipping two lists extended by one element each. -/
theorem zip_append_single :
    ∀ (l1 : List Str) (l2 : List LispType) (r : Str) (x : LispType),
      l1.length = l2.length →
      (l1 ++ [r]).zip (l2 ++ [x]) = l1.zip l2 ++ [(r, x)] := by
  intro l1
  induction l1 with
  | nil =>
    intro l2 r x h
    cases l2 with
    | nil => simp
    | cons b u => simp at h
  | cons a t ih =>
    intro l2 r x h
    cases l2 with
    | nil => simp at h
    | cons b u =>
      simp only [List.length_cons, Nat.add_right_cancel_iff] at h
      simp [ih u r x h]

/-- Running `paramNames` on a list of bare symbols recovers the names. -/
theorem paramNames_map_symbol :
    ∀ names : List Str,
      paramNames (names.map (fun n => .Symbol n .Nil)) = some names := by
  intro names
  induction names with
  | nil => rfl
  | cons n t ih => simp [paramNames, ih]

/-- Splitting without any separator present keeps the list whole. -/
theorem splitAmp_of_not_mem :
    ∀ names : List Str, str "&" ∉ names → splitAmp names = [names] := by
  intro names
  induction names with
  | nil => intro _; rfl
  | cons x t ih =>
    intro h
    have hx : ¬ x = str "&" := fun hx => h (hx ▸ List.mem_cons_self x t)
    have ht : str "&" ∉ t := fun hm => h (List.mem_cons_of_mem x hm)
    simp [splitAmp, hx, ih ht]

/-- Splitting at the first separator peels off the prefix. -/
theorem splitAmp_append_amp :
    ∀ (fixed rest : List Str), str "&" ∉ fixed →
      splitAmp (fixed ++ str "&" :: rest) = fixed :: splitAmp rest := by
  intro fixed
  induction fixed with
  | nil => intro rest _; simp [splitAmp]
  | cons x t ih =>
    intro rest h
    have hx : ¬ x = str "&" := fun hx => h (hx ▸ List.mem_cons_self x t)
    have ht : str "&" ∉ t := fun hm => h (List.mem_cons_of_mem x hm)
    simp [splitAmp, hx, ih rest ht]

/-- Inserting an absent key appends the pair. -/
theorem hmInsert_of_not_mem :
    ∀ (bs : List (Str × LispType)) (k : Str) (v : LispType),
      k ∉ bs.map Prod.fst → hmInsert bs k v = bs ++ [(k, v)] := by
  intro bs
  induction bs with
  | nil => intro k v _; rfl
  | cons kv rest ih =>
    intro k v h
    simp only [List.map_cons, List.mem_cons] at h
    push_neg at h
    simp [hmInsert, h.1, ih k v h.2]

/-- Folding inserts of pairwise-fresh keys over an accumulator with
disjoint keys appends the pairs in order. -/
theorem foldl_hmInsert_of_nodup :
    ∀ (pairs acc : List (Str × LispType)),
      (pairs.map Prod.fst).Nodup →
      (∀ k, k ∈ pairs.map Prod.fst → k ∉ acc.map Prod.fst) →
      pairs.foldl (fun a kv => hmInsert a kv.1 kv.2) acc = acc ++ pairs := by
  intro pairs
  induction pairs with
  | nil => intro acc _ _; simp
  | cons kv rest ih =>
    intro acc hnd hdis
    simp only [List.map_cons, List.nodup_cons] at hnd
    have hk : kv.1 ∉ acc.map Prod.fst := by
      refine hdis kv.1 ?_
      rw [List.map_cons]
      exact List.mem_cons_self _ _
    have step : hmInsert acc kv.1 kv.2 = acc ++ [kv] := by
      have h := hmInsert_of_not_mem acc kv.1 kv.2 hk
      simpa using h
    have hdis2 : ∀ k, k ∈ rest.map Prod.fst → k ∉ (acc ++ [kv]).map Prod.fst := by
      intro k hkr hmem
      rw [List.map_append] at hmem
      rcases List.mem_append.mp hmem with h1 | h2
      · refine hdis k ?_ h1
        rw [List.map_cons]
        exact List.mem_cons_of_mem _ hkr
      · simp only [List.map_cons, List.map_nil, List.mem_singleton] at h2
        exact hnd.1 (h2 ▸ hkr)
    calc (kv :: rest).foldl (fun a p => hmInsert a p.1 p.2) acc
        = rest.foldl (fun a p => hmInsert a p.1 p.2) (acc ++ [kv]) := by
          rw [List.foldl_cons, step]
      _ = (acc ++ [kv]) ++ rest := ih (acc ++ [kv]) hnd.2 hdis2
      _ = acc ++ (kv :: rest) := by simp

/-- Looking up the `i`-th key of a nodup zip finds the `i`-th value. -/
theorem hmLookup_zip_getElem :
    ∀ (fixed : List Str) (args : List LispType) (i : Nat),
      fixed.Nodup → (hif : i < fixed.length) → (hia : i < args.length) →
      hmLookup (fixed.zip args) fixed[i] = some args[i] := by
  intro fixed
  induction fixed with
  | nil => intro args i _ hif; simp at hif
  | cons k t ih =>
    intro args i hnd hif hia
    cases args with
    | nil => simp at hia
    | cons a u =>
      simp only [List.nodup_cons] at hnd
      cases i with
      | zero => simp [hmLookup]
      | succ j =>
        have hjt : j < t.length := by simpa using hif
        have hju : j < u.length := by simpa using hia
        have hj : t[j] ≠ k := by
          intro hkj
          exact hnd.1 (hkj ▸ t.getElem_mem hjt)
        simp only [List.zip_cons_cons, hmLookup, List.getElem_cons_succ]
        rw [if_neg hj]
        exact ih u j hnd.2 hjt hju

/-- A fixed parameter with no matching argument is unbound. -/
theorem hmLookup_zip_none :
    ∀ (fixed : List Str) (args : List LispType) (i : Nat),
      fixed.Nodup → args.length ≤ i → (hif : i < fixed.length) →
      hmLookup (fixed.zip args) fixed[i] = none := by
  intro fixed
  induction fixed with
  | nil => intro args i _ _ hif; simp at hif
  | cons k t ih =>
    intro args i hnd hia hif
    cases args with
    | nil => simp [hmLookup]
    | cons a u =>
      simp only [List.nodup_cons] at hnd
      cases i with
      | zero => simp at hia
      | succ j =>
        have hjt : j < t.length := by simpa using hif
        have hj : t[j] ≠ k := by
          intro hkj
          exact hnd.1 (hkj ▸ t.getElem_mem hjt)
        simp only [List.zip_cons_cons, hmLookup, List.getElem_cons_succ]
        rw [if_neg hj]
        exact ih u j hnd.2 (by simpa using hia) hjt

/-- Lookups skip a prefix that does not bind the key. -/
theorem hmLookup_append_of_not_mem :
    ∀ (xs ys : List (Str × LispType)) (k : Str),
      k ∉ xs.map Prod.fst → hmLookup (xs ++ ys) k = hmLookup ys k := by
  intro xs
  induction xs with
  | nil => intro ys k _; rfl
  | cons kv rest ih =>
    intro ys k h
    simp only [List.map_cons, List.mem_cons] at h
    push_neg at h
    simp [hmLookup, h.1, ih ys k h.2]

/-- C2 amended: `new_from` binds each fixed parameter to the argument in
the same position — and nothing more: there is no arity check.  With
enough arguments every fixed parameter is bound to its argument and a
`&`-rest parameter is bound to a list of the remaining arguments (the
empty list when there are none); with fewer arguments than fixed
parameters no `WrongArity` error arises — the frame simply binds the
first `|args|` parameters and leaves the remaining fixed parameters
unbound, and application proceeds into the body. -/
theorem c2_parameter_binding :
    ∀ (fixed : List Str) (args : List LispType),
      str "&" ∉ fixed → fixed.Nodup →
      newFrom (fixed.map (fun n => .Symbol n .Nil)) args = some (fixed.zip args) ∧
      (∀ (i : Nat) (hif : i < fixed.length) (hia : i < args.length),
        hmLookup (fixed.zip args) fixed[i] = some args[i]) ∧
      (∀ i : Nat, args.length ≤ i → ∀ hif : i < fixed.length,
        hmLookup (fixed.zip args) fixed[i] = none) ∧
      (∀ restName : Str, restName ≠ str "&" → restName ∉ fixed →
        fixed.length ≤ args.length →
        newFrom ((fixed ++ [str "&", restName]).map (fun n => .Symbol n .Nil)) args
          = some (fixed.zip args ++ [(restName, .List (args.drop fixed.length) .Nil)]) ∧
        hmLookup (fixed.zip args ++ [(restName, .List (args.drop fixed.length) .Nil)])
          restName = some (.List (args.drop fixed.length) .Nil)) := by
  intro fixed args hamp hnd
  have hkeys : ((fixed.zip args).map Prod.fst).Nodup := by
    rw [map_fst_zip_take]
    exact (List.take_sublist _ _).nodup hnd
  refine ⟨?_, ?_, ?_, ?_⟩
  · simp only [newFrom, paramNames_map_symbol, splitAmp_of_not_mem fixed hamp]
    simp only [List.headD_cons, List.getElem?_cons_zero, List.getElem?_cons_succ,
      List.getElem?_nil]
    rw [zip_take_self]
    rw [foldl_hmInsert_of_nodup _ [] hkeys
      (by intro k _ hk; rw [List.map_nil] at hk; cases hk)]
    rw [List.nil_append]
  · intro i hif hia
    exact hmLookup_zip_getElem fixed args i hnd hif hia
  · intro i hia hif
    exact hmLookup_zip_none fixed args i hnd hia hif
  · intro restName hramp hrfx hlen
    have hlen2 : fixed.length = (args.take fixed.length).length := by
      simp [List.length_take, Nat.min_eq_left hlen]
    have hsingle : str "&" ∉ [restName] := by
      simp only [List.mem_singleton]
      exact fun h => hramp h.symm
    have hsplit : splitAmp (fixed ++ [str "&", restName]) = [fixed, [restName]] := by
      have h1 : fixed ++ [str "&", restName] = fixed ++ str "&" :: [restName] := rfl
      rw [h1, splitAmp_append_amp fixed [restName] hamp,
        splitAmp_of_not_mem [restName] hsingle]
    have hktake : fixed.take args.length = fixed := List.take_of_length_le hlen
    constructor
    · simp only [newFrom, paramNames_map_symbol, hsplit]
      simp only [List.headD_cons, List.getElem?_cons_succ, List.getElem?_cons_zero,
        List.getElem?_nil, Option.bind_some]
      rw [← hlen2]
      rw [zip_append_single fixed (args.take fixed.length) restName _ hlen2,
        zip_take_self]
      have hkeys2 : (((fixed.zip args)
          ++ [(restName, (LispType.List (args.drop fixed.length) .Nil))]).map
          Prod.fst).Nodup := by
        rw [List.map_append, map_fst_zip_take, hktake]
        simp only [List.map_cons, List.map_nil]
        rw [List.nodup_append]
        refine ⟨hnd, List.nodup_singleton _, ?_⟩
        intro x hx
        simp only [List.mem_singleton]
        intro hxr
        exact hrfx (hxr ▸ hx)
      rw [foldl_hmInsert_of_nodup _ [] hkeys2
        (by intro k _ hk; rw [List.map_nil] at hk; cases hk)]
      rw [List.nil_append]
    · rw [hmLookup_append_of_not_mem]
      · simp [hmLookup]
      · rw [map_fst_zip_take, hktake]
        exact hrfx

/-- C2 witness: two fixed parameters truncate against one extra argument;
a rest parameter collects the remaining arguments. -/
theorem c2_parameter_binding_witness :
    newFrom [.Symbol (str "a") .Nil, .Symbol (str "b") .Nil]
        [.Number 1, .Number 2, .Number 3]
      = some [(str "a", .Number 1), (str "b", .Number 2)] ∧
    newFrom [.Symbol (str "a") .Nil, .Symbol (str "&") .Nil, .Symbol (str "c") .Nil]
        [.Number 1, .Number 2, .Number 3]
      = some [(str "a", .Number 1), (str "c", .List [.Number 2, .Number 3] .Nil)] := by
  constructor
  · have h := (c2_parameter_binding [str "a", str "b"]
      [.Number 1, .Number 2, .Number 3] (by decide) (by decide)).1
    simpa using h
  · have h := ((c2_parameter_binding [str "a"] [.Number 1, .Number 2, .Number 3]
      (by decide) (by decide)).2.2.2 (str "c") (by decide) (by decide)
      (by decide)).1
    simpa using h

/-- Macroexpansion leaves a non-macro-call value untouched. -/
theorem macroexpandSkip (ev : EvalFn) (f : Nat) (st : Store) (v : LispType)
    (e : Nat) (h : isMacroCall st v e = false) :
    macroexpandF ev f st v e = some (st, .ok v) := by
  unfold macroexpandF
  rw [h]
  simp

/-- The `root` walk, under a well-formed store and enough fuel, reaches a
frame along outer references that itself has no outer frame. -/
theorem rootGo_spec (st : Store) (hwf : StoreWF st) :
    ∀ (fuel i : Nat), i < st.frames.length → i < fuel →
      OuterReaches st i (rootGo st fuel i) ∧ frameOuter st (rootGo st fuel i) = none := by
  intro fuel
  induction fuel with
  | zero => intro i _ h; omega
  | succ f ih =>
    intro i hlen hfuel
    have hfr : st.frames[i]? = some st.frames[i] := List.getElem?_eq_getElem hlen
    cases ho : (st.frames[i]).outer with
    | none =>
      have hr : rootGo st (f + 1) i = i := by
        rw [rootGo, hfr]
        dsimp only
        rw [ho]
      rw [hr]
      refine ⟨OuterReaches.refl i, ?_⟩
      rw [frameOuter, hfr]
      simpa using ho
    | some j =>
      have hj : j < i := hwf i st.frames[i] hfr j ho
      have hjlen : j < st.frames.length := Nat.lt_trans hj hlen
      have hjf : j < f := by omega
      obtain ⟨r1, r2⟩ := ih j hjlen hjf
      have hr : rootGo st (f + 1) i = rootGo st f j := by
        rw [rootGo, hfr]
        dsimp only
        rw [ho]
      rw [hr]
      exact ⟨OuterReaches.step hfr ho r1, r2⟩

/-- C5: when the `try*` head is not shadowed by a macro and the catch
parameter is not the literal `&`, evaluating
`(try* body (catch* p cbody))` returns the body's value unchanged on
success; on any `EvaluationError` it evaluates the catch body in a fresh
child frame of the current environment in which `p` is bound to the
exception payload — the thrown value for `Exception`, the stringified
message for every other kind (`"wrong arity"` for `WrongArity`,
`"'<name>' not found"` for `MissingSymbol`, and so on, per
`excValue`). -/
theorem c5_try_catch_success_and_error :
    ∀ (f : Nat) (st st1 : Store) (e : Nat) (body : LispType) (p : Str)
      (cbody : LispType) (r : Except EvaluationError LispType),
      isMacroCall st (tryCatchForm body p cbody) e = false →
      p ≠ str "&" →
      evalF f st body e = some (st1, r) →
      evalF (f + 1) st (tryCatchForm body p cbody) e =
        match r with
        | .ok v => some (st1, .ok v)
        | .error err =>
          evalF f ⟨st1.frames ++ [⟨[(p, excValue err)], some e⟩]⟩ cbody
            st1.frames.length := by
  intro f st st1 e body p cbody r hmc hp hbody
  simp only [tryCatchForm] at hmc ⊢
  simp only [evalF]
  rw [macroexpandSkip _ _ _ _ _ hmc]
  show evalListF f (evalF f) st
    [.Symbol (str "try*") .Nil, body,
     .List [.Symbol (str "catch*") .Nil, .Symbol p .Nil, cbody] .Nil] e = _
  have hsf : specialForm? (str "try*") = some .sfTry := by decide
  simp only [evalListF, hsf]
  simp only [evalTryF, hbody]
  cases r with
  | ok v => rfl
  | error err =>
    have hc : evalCatchF
        (.List [.Symbol (str "catch*") .Nil, .Symbol p .Nil, cbody] .Nil) e
        = .ok (.Lambda [.Symbol p .Nil] [cbody] e .Nil) := by
      simp [evalCatchF]
    have hsp : splitAmp [p] = [[p]] := by
      rw [splitAmp, if_neg hp]
      rfl
    have hpn : paramNames [(.Symbol p .Nil : LispType)] = some [p] := rfl
    have hnf : newFrom [.Symbol p .Nil] [excValue err] = some [(p, excValue err)] := by
      simp only [newFrom, hpn, hsp]
      rfl
    simp only [hc, evalExceptionF, applyLambdaF, hnf, pushFrame, evalSequenceF]

/-- C5 witness: with one root frame, a successful body returns through
`try*` unchanged, and a missing symbol in the body reaches the catch body
with the parameter bound to the `"'nope' not found"` message. -/
theorem c5_try_catch_witness :
    evalF 2 ⟨[⟨[], none⟩]⟩ (tryCatchForm (.Number 7) (str "e") (.Number 0)) 0
      = some (⟨[⟨[], none⟩]⟩, .ok (.Number 7)) ∧
    evalF 2 ⟨[⟨[], none⟩]⟩
        (tryCatchForm (.Symbol (str "nope") .Nil) (str "e") (.Symbol (str "e") .Nil)) 0
      = some (⟨[⟨[], none⟩,
                ⟨[(str "e", .String (str "'nope' not found"))], some 0⟩]⟩,
          .ok (.String (str "'nope' not found"))) := by
  constructor
  · exact c5_try_catch_success_and_error 1 ⟨[⟨[], none⟩]⟩ ⟨[⟨[], none⟩]⟩ 0
      (.Number 7) (str "e") (.Number 0) (.ok (.Number 7)) rfl (by decide) rfl
  · have h := c5_try_catch_success_and_error 1 ⟨[⟨[], none⟩]⟩ ⟨[⟨[], none⟩]⟩ 0
      (.Symbol (str "nope") .Nil) (str "e") (.Symbol (str "e") .Nil)
      (.error (.MissingSymbol (str "nope"))) rfl (by decide) rfl
    rw [h]
    rfl

/-- C8: with the `eval` head not shadowed by a macro, `(eval arg)` first
evaluates `arg` in the current environment and then evaluates the result
in the root environment computed by walking outer references from the
current frame; and under a well-formed store that walk reaches, along
outer references, a frame with no outer — the outermost frame of the
chain. -/
theorem c8_eval_runs_result_in_root :
    (∀ (f : Nat) (st st1 : Store) (e : Nat) (arg v : LispType),
      isMacroCall st (evalForm arg) e = false →
      evalF f st arg e = some (st1, .ok v) →
      evalF (f + 1) st (evalForm arg) e = evalF f st1 v (rootOf st1 e)) ∧
    (∀ st : Store, StoreWF st → ∀ i : Nat, i < st.frames.length →
      OuterReaches st i (rootOf st i) ∧ frameOuter st (rootOf st i) = none) := by
  constructor
  · intro f st st1 e arg v hmc harg
    simp only [evalForm] at hmc ⊢
    simp only [evalF]
    rw [macroexpandSkip _ _ _ _ _ hmc]
    show evalListF f (evalF f) st [.Symbol (str "eval") .Nil, arg] e = _
    have hsf : specialForm? (str "eval") = some .sfEval := by decide
    simp only [evalListF, hsf]
    simp only [evalEvalF, evalSeqF, harg]
  · intro st hwf i hlen
    exact rootGo_spec st hwf (st.frames.length + 1) i hlen (by omega)

/-- C8 witness: in a two-frame chain (root binds `x` to `7`, child binds
`y` to the symbol `x`), `(eval y)` from the child frame evaluates `y` to
the symbol `x` and then evaluates that symbol in the root frame; the walk
from the child reaches the root, which has no outer frame. -/
theorem c8_eval_runs_result_in_root_witness :
    evalF 2 ⟨[⟨[(str "x", .Number 7)], none⟩,
              ⟨[(str "y", .Symbol (str "x") .Nil)], some 0⟩]⟩
        (evalForm (.Symbol (str "y") .Nil)) 1
      = some (⟨[⟨[(str "x", .Number 7)], none⟩,
                ⟨[(str "y", .Symbol (str "x") .Nil)], some 0⟩]⟩, .ok (.Number 7)) ∧
    OuterReaches ⟨[⟨[(str "x", .Number 7)], none⟩,
                   ⟨[(str "y", .Symbol (str "x") .Nil)], some 0⟩]⟩ 1
      (rootOf ⟨[⟨[(str "x", .Number 7)], none⟩,
                ⟨[(str "y", .Symbol (str "x") .Nil)], some 0⟩]⟩ 1) := by
  constructor
  · have h := c8_eval_runs_result_in_root.1 1
      ⟨[⟨[(str "x", .Number 7)], none⟩, ⟨[(str "y", .Symbol (str "x") .Nil)], some 0⟩]⟩
      ⟨[⟨[(str "x", .Number 7)], none⟩, ⟨[(str "y", .Symbol (str "x") .Nil)], some 0⟩]⟩
      1 (.Symbol (str "y") .Nil) (.Symbol (str "x") .Nil) rfl rfl
    rw [h]
    rfl
  · refine (c8_eval_runs_result_in_root.2
      ⟨[⟨[(str "x", .Number 7)], none⟩, ⟨[(str "y", .Symbol (str "x") .Nil)], some 0⟩]⟩
      ?_ 1 (by simp)).1
    intro i fr hfr j hj
    cases i with
    | zero =>
      simp only [List.getElem?_cons_zero, Option.some.injEq] at hfr
      rw [← hfr] at hj
      simp at hj
    | succ i =>
      cases i with
      | zero =>
        simp only [List.getElem?_cons_succ, List.getElem?_cons_zero,
          Option.some.injEq] at hfr
        rw [← hfr] at hj
        simp only [Option.some.injEq] at hj
        omega
      | succ i =>
        simp only [List.getElem?_cons_succ, List.getElem?_nil] at hfr
        cases hfr

end Mal

